import Mathlib

/-!
Verification of the Swagger-to-Postman generator in `src/main.ts`.

The program is dynamically typed JavaScript; we embed the values it
manipulates as the inductive type `JsValue` and translate each function of
the source into a Lean function over `JsValue`, modelling thrown exceptions
with `Except RunError`.  Platform builtins used by the source
(`JSON.stringify`, `JSON.parse`, `new URL(...).host`, `String.prototype`
methods, `Object.entries`) are modelled by Lean functions following their
standard semantics; each such model carries a doc comment saying what it
models.  The nondeterministic faker calls are modelled by a `Faker`
parameter holding the values the generators return during one run: every
property proved below holds for all choices of those values.
-/

/-- A JavaScript value as manipulated by `src/main.ts`: `undefined`, `null`,
booleans, numbers (the program only ever produces integer numbers), strings,
arrays and plain objects (ordered own enumerable properties). -/
inductive JsValue where
  | undef
  | null
  | bool (b : Bool)
  | num (n : Int)
  | str (s : String)
  | arr (elems : List JsValue)
  | obj (fields : List (String × JsValue))

namespace JsValue
end JsValue

mutual
/-- Induction principle for `JsValue` (the auto-generated eliminator of the
nested inductive has several motives, which the `induction` tactic does not
accept; this single-motive version is proved by mutual structural
recursion). -/
def jsRecOn (P : JsValue → Prop)
    (hundef : P .undef) (hnull : P .null)
    (hbool : ∀ b, P (.bool b)) (hnum : ∀ n, P (.num n)) (hstr : ∀ s, P (.str s))
    (harr : ∀ es, (∀ v ∈ es, P v) → P (.arr es))
    (hobj : ∀ fs, (∀ kv ∈ fs, P kv.2) → P (.obj fs)) :
    ∀ v, P v
  | .undef => hundef
  | .null => hnull
  | .bool b => hbool b
  | .num n => hnum n
  | .str s => hstr s
  | .arr es => harr es (jsRecOnL P hundef hnull hbool hnum hstr harr hobj es)
  | .obj fs => hobj fs (jsRecOnF P hundef hnull hbool hnum hstr harr hobj fs)

/-- Helper of `jsRecOn` for lists of values. -/
def jsRecOnL (P : JsValue → Prop)
    (hundef : P .undef) (hnull : P .null)
    (hbool : ∀ b, P (.bool b)) (hnum : ∀ n, P (.num n)) (hstr : ∀ s, P (.str s))
    (harr : ∀ es, (∀ v ∈ es, P v) → P (.arr es))
    (hobj : ∀ fs, (∀ kv ∈ fs, P kv.2) → P (.obj fs)) :
    ∀ es : List JsValue, ∀ v ∈ es, P v
  | [], v, hv => absurd hv (List.not_mem_nil v)
  | e :: rest, v, hv => by
    rcases List.mem_cons.mp hv with h | h
    · exact h ▸ jsRecOn P hundef hnull hbool hnum hstr harr hobj e
    · exact jsRecOnL P hundef hnull hbool hnum hstr harr hobj rest v h

/-- Helper of `jsRecOn` for lists of fields. -/
def jsRecOnF (P : JsValue → Prop)
    (hundef : P .undef) (hnull : P .null)
    (hbool : ∀ b, P (.bool b)) (hnum : ∀ n, P (.num n)) (hstr : ∀ s, P (.str s))
    (harr : ∀ es, (∀ v ∈ es, P v) → P (.arr es))
    (hobj : ∀ fs, (∀ kv ∈ fs, P kv.2) → P (.obj fs)) :
    ∀ fs : List (String × JsValue), ∀ kv ∈ fs, P kv.2
  | [], kv, hkv => absurd hkv (List.not_mem_nil kv)
  | e :: rest, kv, hkv => by
    rcases List.mem_cons.mp hkv with h | h
    · exact h ▸ jsRecOn P hundef hnull hbool hnum hstr harr hobj e.2
    · exact jsRecOnF P hundef hnull hbool hnum hstr harr hobj rest kv h
end

/-- Errors a run of the program can raise: `schemaError` models the
`new Error(...)` thrown by `generateFakeData` (the spec's `SchemaError`),
`typeError` models the JavaScript `TypeError`s raised by illegal property
accesses and method calls on `undefined`/`null`. -/
inductive RunError where
  | schemaError (msg : String)
  | typeError (msg : String)
  deriving DecidableEq

/-- JavaScript truthiness of a value. -/
def truthy : JsValue → Bool
  | .undef => false
  | .null => false
  | .bool b => b
  | .num n => n != 0
  | .str s => s != ""
  | .arr _ => true
  | .obj _ => true

/-- Whether a value is `undefined` or `null` (the values short-circuited by
JavaScript optional chaining `?.`). -/
def isNullish : JsValue → Bool
  | .undef => true
  | .null => true
  | _ => false

/-- Lookup of an own property in an object's field list (JavaScript objects
built from parsed JSON have unique keys; the first match is returned). -/
def lookupField : List (String × JsValue) → String → Option JsValue
  | [], _ => none
  | (k, v) :: rest, key => if k = key then some v else lookupField rest key

/-- Property access `v[key]` on a non-nullish receiver: objects yield the
property value or `undefined`; primitives have no own properties named by
the keys this program reads (`properties`, `items`, `type`, `requestBody`,
...), so they yield `undefined`.  (Builtin prototype properties such as
`length` are not modelled; the source never reads them dynamically.) -/
def jsProp : JsValue → String → JsValue
  | .obj fs, key => (lookupField fs key).getD .undef
  | _, _ => JsValue.undef

/-- Property access `v[key]` including the JavaScript `TypeError` raised
when the receiver is `undefined` or `null`. -/
def jsGet (v : JsValue) (key : String) : Except RunError JsValue :=
  match v with
  | .undef => .error (.typeError ("Cannot read properties of undefined (reading '" ++ key ++ "')"))
  | .null => .error (.typeError ("Cannot read properties of null (reading '" ++ key ++ "')"))
  | _ => .ok (jsProp v key)

/-- Decimal digit character (explicit table so that proofs can do case
analysis by `decide`). -/
def digitChar : Nat → Char
  | 0 => '0' | 1 => '1' | 2 => '2' | 3 => '3' | 4 => '4'
  | 5 => '5' | 6 => '6' | 7 => '7' | 8 => '8' | _ => '9'

/-- Decimal digits of `n`, most significant first; fuel-based so that the
kernel can evaluate it (`fuel > n` suffices, see `natChars`). -/
def natDigitsGo : Nat → Nat → List Char
  | 0, _ => []
  | fuel+1, n => if n < 10 then [digitChar n] else natDigitsGo fuel (n / 10) ++ [digitChar (n % 10)]

/-- Decimal representation of a natural number. -/
def natChars (n : Nat) : List Char := natDigitsGo (n + 1) n

/-- Decimal representation of an integer as emitted by `JSON.stringify` for
the integer-valued numbers this program produces. -/
def intChars (n : Int) : List Char :=
  if n < 0 then '-' :: natChars n.natAbs else natChars n.toNat

/-- Index/value entries of an array, as produced by `Object.entries`. -/
def enumEntries (i : Nat) : List JsValue → List (String × JsValue)
  | [] => []
  | e :: rest => (String.mk (natChars i), e) :: enumEntries (i + 1) rest

/-- Index/character entries of a string, as produced by `Object.entries`. -/
def charEntries (i : Nat) : List Char → List (String × JsValue)
  | [] => []
  | c :: rest => (String.mk (natChars i), .str (String.mk [c])) :: charEntries (i + 1) rest

/-- Model of `Object.entries`: throws a `TypeError` on `undefined`/`null`,
returns the own enumerable string-keyed entries otherwise (objects: their
fields; arrays: index entries; strings: character entries; other primitives
coerce to wrapper objects with no own enumerable properties). -/
def objectEntries : JsValue → Except RunError (List (String × JsValue))
  | .undef => .error (.typeError "Cannot convert undefined or null to object")
  | .null => .error (.typeError "Cannot convert undefined or null to object")
  | .obj fs => .ok fs
  | .arr es => .ok (enumEntries 0 es)
  | .str s => .ok (charEntries 0 s.toList)
  | _ => .ok []

mutual
/-- Size of a value: an upper bound on its nesting depth, used as fuel for
the recursion of `generateFakeData`. -/
def jsSize : JsValue → Nat
  | .arr es => 1 + jsSizeL es
  | .obj fs => 1 + jsSizeF fs
  | _ => 1

/-- Size of a list of values. -/
def jsSizeL : List JsValue → Nat
  | [] => 0
  | e :: rest => jsSize e + jsSizeL rest

/-- Size of a list of fields. -/
def jsSizeF : List (String × JsValue) → Nat
  | [] => 0
  | (_, v) :: rest => 1 + jsSize v + jsSizeF rest
end

/-- The values returned by the faker calls during one run
(`faker.commerce.productName()`, `faker.number.int()`,
`faker.random.word()`).  The source draws them nondeterministically; every
theorem below is quantified over this structure, so it holds for all draws. -/
structure Faker where
  productName : String
  intVal : Int
  word : String

/-- One concrete draw of the faker values, used by the concrete instances
below (every universally quantified theorem holds for all draws). -/
def someFaker : Faker := ⟨"Awesome Granite Chair", 42, "word"⟩

/-- `hasTypeProperty` of the source (line 30): `obj && obj.type`, used as a
boolean, i.e. the receiver is truthy and its `type` property is truthy. -/
def hasTypeProperty (o : JsValue) : Bool :=
  if truthy o then truthy (jsProp o "type") else false

/-- JavaScript strict equality `v === s` against a string literal. -/
def strictEqStr (v : JsValue) (s : String) : Bool :=
  match v with
  | .str t => t == s
  | _ => false

/-- The body of the `for (const [key, value] of Object.entries(schema.properties))`
loop of `generateFakeData` (source lines 37–52), parameterized by the
recursive call `rec`.  Entries whose node has a truthy `type` matching none
of the four recognized branches are skipped without an error, exactly as in
the source (`else`-less `if` chain). -/
def genLoop (fk : Faker) (rec : JsValue → Except RunError JsValue) :
    List (String × JsValue) → Except RunError (List (String × JsValue))
  | [] => .ok []
  | (key, value) :: rest =>
    if ¬ hasTypeProperty value then
      .error (.schemaError ("Type property is missing for " ++ key))
    else if truthy value && strictEqStr (jsProp value "type") "string" then
      match genLoop fk rec rest with
      | .error e => .error e
      | .ok out => .ok ((key, .str fk.productName) :: out)
    else if strictEqStr (jsProp value "type") "integer" then
      match genLoop fk rec rest with
      | .error e => .error e
      | .ok out => .ok ((key, .num fk.intVal) :: out)
    else if strictEqStr (jsProp value "type") "array" && truthy (jsProp value "items") then
      match rec (jsProp value "items") with
      | .error e => .error e
      | .ok inner =>
        match genLoop fk rec rest with
        | .error e => .error e
        | .ok out => .ok ((key, .arr [inner]) :: out)
    else if strictEqStr (jsProp value "type") "object" then
      match rec value with
      | .error e => .error e
      | .ok inner =>
        match genLoop fk rec rest with
        | .error e => .error e
        | .ok out => .ok ((key, inner) :: out)
    else
      genLoop fk rec rest

/-- Fueled body of `generateFakeData` (source lines 35–53): reads
`schema.properties`, enumerates its entries with `Object.entries`, and runs
the loop.  The fuel only bounds the recursion depth; `generateFakeData`
passes `jsSize schema`, which exceeds the nesting depth of any `JsValue`,
so the out-of-fuel branch (JavaScript's stack overflow on cyclic schemas)
is unreachable on the acyclic values modelled here. -/
def genGo (fk : Faker) : Nat → JsValue → Except RunError JsValue
  | 0, _ => .error (.typeError "Maximum call stack size exceeded")
  | fuel+1, schema =>
    match jsGet schema "properties" with
    | .error e => .error e
    | .ok props =>
      match objectEntries props with
      | .error e => .error e
      | .ok entries =>
        match genLoop fk (fun v => genGo fk fuel v) entries with
        | .error e => .error e
        | .ok out => .ok (.obj out)

/-- `generateFakeData` of the source (lines 35–53). -/
def generateFakeData (fk : Faker) (schema : JsValue) : Except RunError JsValue :=
  genGo fk (jsSize schema) schema

/-- Splitting a list of characters on a separator character, JavaScript
`String.prototype.split` with a one-character separator (so
`"".split("/") = [""]`, `"a/".split("/") = ["a", ""]`). -/
def splitCharAux (sep : Char) (acc : List Char) : List Char → List String
  | [] => [String.mk acc.reverse]
  | c :: rest =>
    if c = sep then String.mk acc.reverse :: splitCharAux sep [] rest
    else splitCharAux sep (c :: acc) rest

/-- Model of `s.split(sep)` for a one-character separator. -/
def jsSplitChar (s : String) (sep : Char) : List String := splitCharAux sep [] s.toList

/-- Model of `path.split("/").filter(Boolean)` (source line 97):
`Boolean` maps the empty string to `false`, so empty segments are removed. -/
def pathSegments (path : String) : List String :=
  (jsSplitChar path '/').filter (fun seg => seg != "")

/-- Model of `ref.split("/").pop()!` (source line 69): the last
slash-separated segment (`split` never returns an empty list, so the
non-null assertion of the source is sound; the default is unreachable). -/
def lastSegment (s : String) : String := (jsSplitChar s '/').getLastD ""

/-- Model of `method.toUpperCase()` for the ASCII method names of a Swagger
document. -/
def jsToUpperCase (s : String) : String := String.mk (s.toList.map Char.toUpper)

/-- Model of `path.includes(c)` for a one-character needle. -/
def jsIncludesChar (s : String) (c : Char) : Bool := s.toList.contains c

/-- Scanner for the global regex match `path.match(/\x7b(.*?)\x7d/g)`
(source line 100): left to right, an opening brace starts a lazy match that
ends at the first following closing brace; the full matched substrings
(braces included) are returned in order, duplicates repeated.  An empty
result models the `null` returned by `match` when there is no match. -/
def scanBraces : List Char → Option (List Char) → List String
  | [], _ => []
  | c :: rest, none =>
    if c = '\x7b' then scanBraces rest (some [c]) else scanBraces rest none
  | c :: rest, some acc =>
    if c = '\x7d' then String.mk (acc.reverse ++ [c]) :: scanBraces rest none
    else scanBraces rest (some (c :: acc))

/-- All matches of `/\x7b(.*?)\x7d/g` in `s`, braces included. -/
def jsMatchBraces (s : String) : List String := scanBraces s.toList none

/-- Model of `v.slice(1, -1)`: drop the first and last character. -/
def jsSlice1m1 (s : String) : String := String.mk (s.toList.drop 1).dropLast

/-- The `variable` part of the generated URL (source lines 99–105):
`path.includes("\x7b") ? path.match(/\x7b(.*?)\x7d/g)!.map(...) : []`.
When the path contains an opening brace but the regex has no match, `match`
returns `null` and the non-null-asserted `.map` throws a `TypeError`. -/
def pathVariables (path : String) : Except RunError JsValue :=
  if jsIncludesChar path '\x7b' then
    match jsMatchBraces path with
    | [] => .error (.typeError "Cannot read properties of null (reading 'map')")
    | m :: ms => .ok (.arr ((m :: ms).map (fun v =>
        .obj [("key", .str (jsSlice1m1 v)), ("value", .str ""), ("description", .str "")])))
  else .ok (.arr [])

/-- Drops everything up to and including the first `://` (scheme separator)
of a URL's character list. -/
def dropSchemeSep : List Char → List Char
  | ':' :: '/' :: '/' :: rest => rest
  | _ :: rest => dropSchemeSep rest
  | [] => []

/-- The authority part of what follows the scheme separator: everything up
to the first `/`, `?` or `#`. -/
def takeAuthority (cs : List Char) : List Char :=
  cs.takeWhile (fun c => c != '/' && c != '?' && c != '#')

/-- Strips the userinfo (up to and including the last `@`) from an
authority. -/
def dropUserinfo (cs : List Char) : List Char :=
  if cs.contains '@' then (cs.reverse.takeWhile (fun c => c != '@')).reverse else cs

/-- Model of the WHATWG URL builtin `new URL(u).host` for absolute
hierarchical URLs as they appear in a Swagger `servers` list: the
host-and-port part of the authority, ASCII-lowercased.  (IPv6 bracket
literals, percent-decoding and URL validation errors are outside the model;
the source relies on the same builtin.) -/
def urlHost (u : String) : String :=
  String.mk ((dropUserinfo (takeAuthority (dropSchemeSep u.toList))).map Char.toLower)

/-- `createEnvironment` of the source (lines 23–28): a pure function of the
server URL. -/
def createEnvironment (serverUrl : String) : JsValue :=
  .obj [("environment", .obj [
    ("name", .str (urlHost serverUrl)),
    ("values", .arr [.obj [("key", .str "base_url"), ("value", .str serverUrl),
                           ("enabled", .bool true)]])])]

/-- Hexadecimal digit character (lowercase, as emitted by
`JSON.stringify` for control characters). -/
def hexDigitChar : Nat → Char
  | 0 => '0' | 1 => '1' | 2 => '2' | 3 => '3' | 4 => '4'
  | 5 => '5' | 6 => '6' | 7 => '7' | 8 => '8' | 9 => '9'
  | 10 => 'a' | 11 => 'b' | 12 => 'c' | 13 => 'd' | 14 => 'e' | _ => 'f'

/-- JSON string escaping of one character, following `JSON.stringify`:
quote, backslash and the short control escapes get a two-character escape,
the remaining control characters a `\u00xx` escape, and every other
character is emitted literally. -/
def escChar (c : Char) : List Char :=
  if c = '"' then ['\\', '"']
  else if c = '\\' then ['\\', '\\']
  else if c = '\x08' then ['\\', 'b']
  else if c = '\x0c' then ['\\', 'f']
  else if c = '\n' then ['\\', 'n']
  else if c = '\x0d' then ['\\', 'r']
  else if c = '\t' then ['\\', 't']
  else if c.toNat < 32 then
    ['\\', 'u', '0', '0', hexDigitChar (c.toNat / 16), hexDigitChar (c.toNat % 16)]
  else [c]

/-- JSON string escaping of a character list. -/
def escapeChars : List Char → List Char
  | [] => []
  | c :: rest => escChar c ++ escapeChars rest

/-- A JSON string literal for `s`: quote, escaped characters, quote. -/
def quoteChars (s : String) : List Char := '"' :: (escapeChars s.toList ++ ['"'])

/-- Indentation emitted by `JSON.stringify(v, null, sp)` at nesting depth
`d`. -/
def indentChars (sp d : Nat) : List Char := List.replicate (sp * d) ' '

/-- Whitespace after an opening bracket or a comma: empty when `sp = 0`
(compact mode), newline plus indentation otherwise. -/
def openWs (sp d : Nat) : List Char :=
  if sp = 0 then [] else '\n' :: indentChars sp d

/-- Whitespace before a closing bracket: empty when `sp = 0`, newline plus
indentation otherwise. -/
def closeWs (sp d : Nat) : List Char :=
  if sp = 0 then [] else '\n' :: indentChars sp d

/-- The colon between a key and a value: `:` in compact mode, `: ` in
indented mode, as `JSON.stringify` emits it. -/
def colonChars (sp : Nat) : List Char :=
  if sp = 0 then [':'] else [':', ' ']

mutual
/-- Model of the serialization of one value by
`JSON.stringify(v, null, sp)` at nesting depth `d`.  An `undef` reached
here is an array element, rendered `null` (object fields holding `undef`
are dropped by `serMembers`, and the program never passes a top-level
`undefined`, see `jsonStringify`). -/
def serVal (sp d : Nat) : JsValue → List Char
  | .undef => ['n', 'u', 'l', 'l']
  | .null => ['n', 'u', 'l', 'l']
  | .bool b => if b then ['t', 'r', 'u', 'e'] else ['f', 'a', 'l', 's', 'e']
  | .num n => intChars n
  | .str s => quoteChars s
  | .arr [] => ['[', ']']
  | .arr (e :: rest) =>
    '[' :: (openWs sp (d+1) ++ serVal sp (d+1) e ++ serItems sp (d+1) rest
      ++ closeWs sp d ++ [']'])
  | .obj fs =>
    let body := serMembers sp (d+1) true fs
    if body.isEmpty then ['\x7b', '\x7d'] else '\x7b' :: (body ++ closeWs sp d ++ ['\x7d'])

/-- Serialization of the array elements after the first one. -/
def serItems (sp d : Nat) : List JsValue → List Char
  | [] => []
  | e :: rest => ',' :: (openWs sp d ++ serVal sp d e ++ serItems sp d rest)

/-- Serialization of an object's members.  Fields whose value is
`undefined` are dropped, as `JSON.stringify` drops them; `first` records
whether no member has been emitted yet (controlling the separator). -/
def serMembers (sp d : Nat) (first : Bool) : List (String × JsValue) → List Char
  | [] => []
  | (_, .undef) :: rest => serMembers sp d first rest
  | (k, v) :: rest =>
    (if first then openWs sp d else ',' :: openWs sp d) ++ quoteChars k
      ++ colonChars sp ++ serVal sp d v ++ serMembers sp d false rest
end

/-- Model of the builtin `JSON.stringify(v, null, sp)` (with `sp = 0`
meaning the two-argument `JSON.stringify(v)` of source line 72, and
`sp = 2` the pretty-printing of `saveToFile`, source line 140).  The
program never stringifies a top-level `undefined` (for which the builtin
returns no string at all). -/
def jsonStringify (sp : Nat) (v : JsValue) : String := String.mk (serVal sp 0 v)

mutual
/-- Replaces every `undefined` array element by `null` and drops every
object field holding `undefined`: the value that survives a
`JSON.stringify`/`JSON.parse` round trip. -/
def stripUndef : JsValue → JsValue
  | .undef => .null
  | .null => .null
  | .bool b => .bool b
  | .num n => .num n
  | .str s => .str s
  | .arr es => .arr (stripUndefL es)
  | .obj fs => .obj (stripUndefF fs)

/-- `stripUndef` on array elements. -/
def stripUndefL : List JsValue → List JsValue
  | [] => []
  | e :: rest => stripUndef e :: stripUndefL rest

/-- `stripUndef` on object fields. -/
def stripUndefF : List (String × JsValue) → List (String × JsValue)
  | [] => []
  | (_, .undef) :: rest => stripUndefF rest
  | (k, v) :: rest => (k, stripUndef v) :: stripUndefF rest
end

mutual
/-- Whether a value contains no `undefined` anywhere (no undefined-valued
object property and no undefined array element). -/
def noUndef : JsValue → Bool
  | .undef => false
  | .arr es => noUndefL es
  | .obj fs => noUndefF fs
  | _ => true

/-- `noUndef` on array elements. -/
def noUndefL : List JsValue → Bool
  | [] => true
  | e :: rest => noUndef e && noUndefL rest

/-- `noUndef` on object fields. -/
def noUndefF : List (String × JsValue) → Bool
  | [] => true
  | (_, v) :: rest => noUndef v && noUndefF rest
end

/-- JSON whitespace (the four characters `JSON.parse` skips between
tokens). -/
def jsonWs (c : Char) : Bool := c = ' ' || c = '\t' || c = '\n' || c = '\x0d'

/-- Skips leading JSON whitespace. -/
def skipWs : List Char → List Char
  | [] => []
  | c :: rest => if jsonWs c then skipWs rest else c :: rest

/-- Value of a decimal digit character (codepoints 48–57). -/
def digitVal (c : Char) : Option Nat :=
  if 48 ≤ c.toNat && c.toNat ≤ 57 then some (c.toNat - 48) else none

/-- Value of a hexadecimal digit character, either case (codepoints
48–57, 97–102 and 65–70). -/
def hexVal (c : Char) : Option Nat :=
  if 48 ≤ c.toNat && c.toNat ≤ 57 then some (c.toNat - 48)
  else if 97 ≤ c.toNat && c.toNat ≤ 102 then some (c.toNat - 87)
  else if 65 ≤ c.toNat && c.toNat ≤ 70 then some (c.toNat - 55)
  else none

/-- Whether a character is a decimal digit. -/
def isDigitCh (c : Char) : Bool := (digitVal c).isSome

/-- A position at which a serialized number may legally stop: end of
input, or a character that neither continues a digit run nor starts a
fraction or exponent. -/
def numBoundary : List Char → Bool
  | [] => true
  | c :: _ => (digitVal c).isNone && !(c = '.') && !(c = 'e') && !(c = 'E')


/-- The scanning mode of the JSON string-literal parser: ordinary
characters, the character after a backslash, or the remaining digits of a
`\uXXXX` escape with the value accumulated so far. -/
inductive StrMode where
  | plain
  | esc
  | hex (acc : Nat) (remaining : Nat)

/-- Body of a JSON string literal, after the opening quote: accumulates
characters until the closing quote, decoding the standard escapes one
input character per step.  Raw control characters are invalid in JSON and
rejected.  A `\uXXXX` escape denoting a lone surrogate is rejected
(JavaScript strings could hold it, but the serializer under verification
never emits one and Unicode strings cannot represent it). -/
def parseStrGo : List Char → StrMode → List Char → Option (String × List Char)
  | [], _, _ => none
  | c :: rest, .plain, acc =>
    if c = '"' then some (String.mk acc.reverse, rest)
    else if c = '\\' then parseStrGo rest .esc acc
    else if c.toNat < 32 then none
    else parseStrGo rest .plain (c :: acc)
  | c :: rest, .esc, acc =>
    if c = '"' then parseStrGo rest .plain ('"' :: acc)
    else if c = '\\' then parseStrGo rest .plain ('\\' :: acc)
    else if c = '/' then parseStrGo rest .plain ('/' :: acc)
    else if c = 'b' then parseStrGo rest .plain ('\x08' :: acc)
    else if c = 'f' then parseStrGo rest .plain ('\x0c' :: acc)
    else if c = 'n' then parseStrGo rest .plain ('\n' :: acc)
    else if c = 'r' then parseStrGo rest .plain ('\x0d' :: acc)
    else if c = 't' then parseStrGo rest .plain ('\t' :: acc)
    else if c = 'u' then parseStrGo rest (.hex 0 4) acc
    else none
  | c :: rest, .hex a k, acc =>
    match hexVal c with
    | none => none
    | some d =>
      match k with
      | 0 => none
      | 1 =>
        if a * 16 + d < 55296 ∨ (57344 ≤ a * 16 + d ∧ a * 16 + d < 1114112) then
          parseStrGo rest .plain (Char.ofNat (a * 16 + d) :: acc)
        else none
      | k' + 2 => parseStrGo rest (.hex (a * 16 + d) (k' + 1)) acc

/-- Consumes a run of decimal digits, folding them onto `acc`. -/
def parseDigitsGo (acc : Nat) : List Char → Nat × List Char
  | [] => (acc, [])
  | c :: rest =>
    match digitVal c with
    | some d => parseDigitsGo (acc * 10 + d) rest
    | none => (acc, c :: rest)

/-- Finishes a number token: a following `.`, `e` or `E` would start a
fraction or exponent, which denote floating-point values outside this
integer-valued model; the serializer under verification emits only
integers, and the model rejects the rest rather than mis-reading it. -/
def numTailOk (n : Nat) : List Char → Option (Nat × List Char)
  | [] => some (n, [])
  | c :: rest =>
    if c = '.' || c = 'e' || c = 'E' then none else some (n, c :: rest)

/-- The digits of a JSON number after the optional minus sign, enforcing
the JSON grammar's leading-zero rule. -/
def parseNumTail : List Char → Option (Nat × List Char)
  | [] => none
  | c :: rest =>
    match digitVal c with
    | none => none
    | some d =>
      if c = '0' then
        match rest with
        | [] => some (0, [])
        | r :: rs => if isDigitCh r then none else numTailOk 0 (r :: rs)
      else
        match parseDigitsGo d rest with
        | (n, rem) => numTailOk n rem

mutual
/-- One JSON value, fuel-bounded recursive descent.  The fuel decreases at
every recursive call; `parseJson` passes more fuel than twice the input
length, which cannot run out (every other call consumes at least one
character).  Composite values are delegated to `parseArr`/`parseObj` on
the whitespace-skipped remainder. -/
def parseVal : Nat → List Char → Option (JsValue × List Char)
  | 0, _ => none
  | fuel+1, cs =>
    match skipWs cs with
    | 'n' :: 'u' :: 'l' :: 'l' :: rest => some (.null, rest)
    | 't' :: 'r' :: 'u' :: 'e' :: rest => some (.bool true, rest)
    | 'f' :: 'a' :: 'l' :: 's' :: 'e' :: rest => some (.bool false, rest)
    | '"' :: rest =>
      match parseStrGo rest .plain [] with
      | some (s, r) => some (.str s, r)
      | none => none
    | '[' :: rest => parseArr fuel (skipWs rest)
    | '\x7b' :: rest => parseObj fuel (skipWs rest)
    | '-' :: rest =>
      match parseNumTail rest with
      | some (n, r) => some (.num (-(n : Int)), r)
      | none => none
    | other =>
      match parseNumTail other with
      | some (n, r) => some (.num (n : Int), r)
      | none => none

/-- The inside of an array after `[` (whitespace already skipped): empty,
or a first value followed by `parseItems`. -/
def parseArr : Nat → List Char → Option (JsValue × List Char)
  | 0, _ => none
  | fuel+1, cs =>
    match cs with
    | ']' :: r2 => some (.arr [], r2)
    | r1 =>
      match parseVal fuel r1 with
      | none => none
      | some (v, r2) =>
        match parseItems fuel r2 with
        | some (vs, r3) => some (.arr (v :: vs), r3)
        | none => none

/-- The inside of an object after the opening brace (whitespace already
skipped): empty, or a first member followed by `parseMembers`. -/
def parseObj : Nat → List Char → Option (JsValue × List Char)
  | 0, _ => none
  | fuel+1, cs =>
    match cs with
    | '\x7d' :: r2 => some (.obj [], r2)
    | r1 =>
      match parseMember fuel r1 with
      | none => none
      | some (kv, r4) =>
        match parseMembers fuel r4 with
        | some (fs, r5) => some (.obj (kv :: fs), r5)
        | none => none

/-- One `"key": value` member (input starting at the quote). -/
def parseMember : Nat → List Char → Option ((String × JsValue) × List Char)
  | 0, _ => none
  | fuel+1, cs =>
    match cs with
    | '"' :: r1 =>
      match parseStrGo r1 .plain [] with
      | none => none
      | some (k, r2) =>
        match parseColon fuel (skipWs r2) with
        | none => none
        | some (v, r4) => some ((k, v), r4)
    | _ => none

/-- The colon between a member's key and value, then the value. -/
def parseColon : Nat → List Char → Option (JsValue × List Char)
  | 0, _ => none
  | fuel+1, cs =>
    match cs with
    | ':' :: r3 => parseVal fuel r3
    | _ => none

/-- The array elements after the first one: `, value` repeated, then `]`. -/
def parseItems : Nat → List Char → Option (List JsValue × List Char)
  | 0, _ => none
  | fuel+1, cs =>
    match skipWs cs with
    | ']' :: rest => some ([], rest)
    | ',' :: rest =>
      match parseVal fuel rest with
      | none => none
      | some (v, r2) =>
        match parseItems fuel r2 with
        | some (vs, r3) => some (v :: vs, r3)
        | none => none
    | _ => none

/-- The object members after the first one: `, "key": value` repeated,
then the closing brace. -/
def parseMembers : Nat → List Char → Option (List (String × JsValue) × List Char)
  | 0, _ => none
  | fuel+1, cs =>
    match skipWs cs with
    | '\x7d' :: rest => some ([], rest)
    | ',' :: rest =>
      match parseMember fuel (skipWs rest) with
      | none => none
      | some (kv, r4) =>
        match parseMembers fuel r4 with
        | some (fs, r5) => some (kv :: fs, r5)
        | none => none
    | _ => none
end

/-- Model of the builtin `JSON.parse`: one value surrounded by optional
whitespace; anything else is a parse error (`none`).  Duplicate-key member
lists are collected in order (a JavaScript object would keep the last
duplicate, but no document this program serializes has duplicate keys). -/
def parseJson (s : String) : Option JsValue :=
  let cs := s.toList
  match parseVal (2 * cs.length + 2) cs with
  | some (v, rest) => if (skipWs rest).isEmpty then some v else none
  | none => none

/-- Model of the optional chain
`details.requestBody?.content["application/json"]?.schema?.$ref`
(source lines 66–67): each `?.` short-circuits to `undefined` when its
receiver is nullish; the plain accesses (`.requestBody` on `details`,
`["application/json"]` on `content`) throw on a nullish receiver. -/
def resolveBodyRef (details : JsValue) : Except RunError JsValue :=
  match jsGet details "requestBody" with
  | .error e => .error e
  | .ok requestBody =>
    if isNullish requestBody then .ok .undef
    else
      match jsGet (jsProp requestBody "content") "application/json" with
      | .error e => .error e
      | .ok cj =>
        if isNullish cj then .ok .undef
        else
          let schema := jsProp cj "schema"
          if isNullish schema then .ok .undef
          else .ok (jsProp schema "$ref")

/-- The request body of one item (source lines 68–75): when the reference
is truthy, resolve it by its last slash-separated segment in the
component schemas (an absent name yields `undefined`, passed on to the
generator), and serialize the generated fake data compactly; otherwise the
`body` local stays `undefined`.  Calling `.split` on a truthy non-string
reference throws a `TypeError`. -/
def buildBody (fk : Faker) (schemas : List (String × JsValue)) (details : JsValue) :
    Except RunError JsValue :=
  match resolveBodyRef details with
  | .error e => .error e
  | .ok bodySchemaRef =>
    if truthy bodySchemaRef then
      match bodySchemaRef with
      | .str r =>
        match generateFakeData fk ((lookupField schemas (lastSegment r)).getD .undef) with
        | .error e => .error e
        | .ok fake => .ok (.obj [("mode", .str "raw"), ("raw", .str (jsonStringify 0 fake))])
      | _ => .error (.typeError "bodySchemaRef.split is not a function")
    else .ok JsValue.undef

/-- The filter pass of the query parameters (source line 79): the callback
`param.in === "query"` runs on every element, throwing on a nullish one. -/
def keepQuery : List JsValue → Except RunError (List JsValue)
  | [] => .ok []
  | p :: rest =>
    match jsGet p "in" with
    | .error e => .error e
    | .ok inv =>
      match keepQuery rest with
      | .error e => .error e
      | .ok tail => .ok (if strictEqStr inv "query" then p :: tail else tail)

/-- The map pass of the query parameters (source lines 80–87): key from
`param.name`, value a compactly JSON-encoded one-element array of a faker
word when `param.schema.type === "array"` and a bare faker word otherwise,
description from `param.description` (possibly `undefined`).  Reading
`.type` throws when `param.schema` is nullish. -/
def mapQuery (fk : Faker) : List JsValue → Except RunError (List JsValue)
  | [] => .ok []
  | p :: rest =>
    match jsGet p "name" with
    | .error e => .error e
    | .ok name =>
      match jsGet p "schema" with
      | .error e => .error e
      | .ok schema =>
        match jsGet schema "type" with
        | .error e => .error e
        | .ok ty =>
          let value := if strictEqStr ty "array"
            then JsValue.str (jsonStringify 0 (.arr [.str fk.word]))
            else JsValue.str fk.word
          match jsGet p "description" with
          | .error e => .error e
          | .ok desc =>
            match mapQuery fk rest with
            | .error e => .error e
            | .ok tail =>
              .ok (.obj [("key", name), ("value", value), ("description", desc)] :: tail)

/-- The query parameters of one item (source lines 77–87):
`details.parameters?.filter(...).map(...) || []`.  A nullish `parameters`
short-circuits to `undefined`, which `|| []` replaces by the empty list; a
truthy non-array has no `.filter` method and throws. -/
def buildQueryParams (fk : Faker) (details : JsValue) : Except RunError JsValue :=
  match jsGet details "parameters" with
  | .error e => .error e
  | .ok params =>
    if isNullish params then .ok (.arr [])
    else
      match params with
      | .arr ps =>
        match keepQuery ps with
        | .error e => .error e
        | .ok kept =>
          match mapQuery fk kept with
          | .error e => .error e
          | .ok entries => .ok (.arr entries)
      | _ => .error (.typeError "details.parameters.filter is not a function")

/-- One request item of the generated collection: the body of the double
`Object.entries` map of `createCollection` (source lines 64–110) for a
single `(path, method, details)` triple. -/
def createItem (fk : Faker) (schemas : List (String × JsValue))
    (path method : String) (details : JsValue) : Except RunError JsValue :=
  match buildBody fk schemas details with
  | .error e => .error e
  | .ok body =>
    match buildQueryParams fk details with
    | .error e => .error e
    | .ok queryParams =>
      match jsGet details "summary" with
      | .error e => .error e
      | .ok summary =>
        let name := if truthy summary then summary else JsValue.str path
        match pathVariables path with
        | .error e => .error e
        | .ok pathVars =>
          .ok (.obj [
            ("name", name),
            ("request", .obj [
              ("method", .str (jsToUpperCase method)),
              ("header", .arr []),
              ("url", .obj [
                ("raw", .str ("\x7b\x7bbase_url\x7d\x7d" ++ path)),
                ("host", .arr [.str "\x7b\x7bbase_url\x7d\x7d"]),
                ("path", .arr ((pathSegments path).map JsValue.str)),
                ("query", queryParams),
                ("variable", pathVars)]),
              ("body", body)]),
            ("response", .arr [])])

/-- Error-propagating map over a list (the JavaScript `flatMap`/`map`
callbacks abort the whole construction at the first thrown error). -/
def mapME (f : α → Except RunError β) : List α → Except RunError (List β)
  | [] => .ok []
  | a :: rest =>
    match f a with
    | .error e => .error e
    | .ok b =>
      match mapME f rest with
      | .error e => .error e
      | .ok tail => .ok (b :: tail)

/-- One server entry of the Swagger document (`servers: { url: string }[]`). -/
structure ServerEntry where
  url : String

/-- The parsed Swagger document as typed by the source's `Swagger`
interface: servers, a path-to-methods mapping, and the component schemas.
The per-operation `details` values are untyped (`any`) in the source and
stay `JsValue` here; the mappings are association lists in document
order. -/
structure Swagger where
  servers : List ServerEntry
  paths : List (String × List (String × JsValue))
  schemas : List (String × JsValue)

/-- `createCollection` of the source (lines 55–113): the fixed `info`
header and one item per (path, method) pair, in path order then method
order. -/
def createCollection (fk : Faker) (swagger : Swagger) : Except RunError JsValue :=
  match mapME (fun pm =>
    mapME (fun md => createItem fk swagger.schemas pm.1 md.1 md.2) pm.2) swagger.paths with
  | .error e => .error e
  | .ok itemLists => .ok (.obj [("collection", .obj [
    ("info", .obj [
      ("name", .str "Generated Collection"),
      ("description", .str "Collection generated from Swagger file"),
      ("schema", .str "https://schema.getpostman.com/json/collection/v2.1.0/collection.json")]),
      ("item", .arr itemLists.flatten)])])

/-- Kinds of operations performed by `main` (source lines 144–176). -/
inductive StepKind where
  | specLoad | envGen | consoleLog | collGen | fileWrite
  deriving DecidableEq

/-- One operation of `main`'s control flow.  `sequenced` is `true` when
`main` awaits the operation or runs it synchronously, so that an error it
raises rejects `main`'s promise and reaches the top-level
`main().catch(console.error)` (source line 178); it is `false` for an
async call whose returned promise `main` discards, whose rejection
therefore bypasses the top-level catch. -/
structure PipelineStep where
  descr : String
  kind : StepKind
  sequenced : Bool
  deriving DecidableEq

/-- The operations of `main` in program order, with their awaiting
discipline as written in the source: `fetchSwagger` is awaited (line 145);
`createEnvironment`, `console.log` and `createCollection` are synchronous
calls (lines 152, 153, 165, 166); both `saveToFile` calls (lines 157 and
171) are invoked without `await`, their promises discarded. -/
def mainPipeline : List PipelineStep := [
  ⟨"await fetchSwagger()", .specLoad, true⟩,
  ⟨"createEnvironment(server.url)", .envGen, true⟩,
  ⟨"console.log(environment)", .consoleLog, true⟩,
  ⟨"saveToFile(environment_<host>.json, environment)", .fileWrite, false⟩,
  ⟨"createCollection(swagger)", .collGen, true⟩,
  ⟨"console.log(collection)", .consoleLog, true⟩,
  ⟨"saveToFile(collection_generated.json, collection)", .fileWrite, false⟩]

/-- An error raised by a step is reported on standard error by the
top-level `main().catch(console.error)` exactly when the step is sequenced
into `main`'s promise chain. -/
def errorReportedAtTopLevel (s : PipelineStep) : Bool := s.sequenced

mutual
/-- A schema on which `generateFakeData` succeeds with fully populated
output: an object whose `properties` field is an object of good property
nodes. -/
inductive GoodSchema : JsValue → Prop where
  | mk (fs : List (String × JsValue)) (pfs : List (String × JsValue)) :
      lookupField fs "properties" = some (.obj pfs) → GoodProps pfs →
      GoodSchema (.obj fs)

/-- Good property-node lists. -/
inductive GoodProps : List (String × JsValue) → Prop where
  | nil : GoodProps []
  | cons (k : String) (v : JsValue) (rest : List (String × JsValue)) :
      GoodProp v → GoodProps rest → GoodProps ((k, v) :: rest)

/-- A property node carrying one of the four recognized types, with the
nested data the corresponding branch of the generator needs: array nodes
carry an `items` schema that is itself good, object nodes are themselves
good schemas. -/
inductive GoodProp : JsValue → Prop where
  | str (vfs : List (String × JsValue)) :
      lookupField vfs "type" = some (.str "string") → GoodProp (.obj vfs)
  | int (vfs : List (String × JsValue)) :
      lookupField vfs "type" = some (.str "integer") → GoodProp (.obj vfs)
  | arr (vfs : List (String × JsValue)) (it : JsValue) :
      lookupField vfs "type" = some (.str "array") →
      lookupField vfs "items" = some it → truthy it = true → GoodSchema it →
      GoodProp (.obj vfs)
  | obj (vfs : List (String × JsValue)) :
      lookupField vfs "type" = some (.str "object") → GoodSchema (.obj vfs) →
      GoodProp (.obj vfs)
end

/-- The property names a schema declares (the key list of its `properties`
object). -/
def schemaPropNames (s : JsValue) : List String :=
  match jsProp s "properties" with
  | .obj pfs => pfs.map Prod.fst
  | _ => []

/-- The relation claimed between a property node and the value the
generator produces for it: the runtime type of the output matches the
declared type (string to string, integer to number, array to one-element
sequence, object to nested mapping). -/
def FakeMatches (propNode out : JsValue) : Prop :=
  (strictEqStr (jsProp propNode "type") "string" = true → ∃ s, out = .str s) ∧
  (strictEqStr (jsProp propNode "type") "integer" = true → ∃ n, out = .num n) ∧
  (strictEqStr (jsProp propNode "type") "array" = true → ∃ e, out = .arr [e]) ∧
  (strictEqStr (jsProp propNode "type") "object" = true → ∃ gfs, out = .obj gfs)

/-- Spec-side description of one query entry (used to state the claim
about query parameters, for comparison with the code's
filter-then-map): a parameter located in the query yields one
key/value/description entry, an array-typed one getting a JSON-encoded
one-element array value and any other type a bare placeholder word. -/
def querySpecEntry (fk : Faker) (p : JsValue) : Option JsValue :=
  if strictEqStr (jsProp p "in") "query" then
    some (.obj [
      ("key", jsProp p "name"),
      ("value", if strictEqStr (jsProp (jsProp p "schema") "type") "array"
        then JsValue.str (jsonStringify 0 (.arr [.str fk.word]))
        else JsValue.str fk.word),
      ("description", jsProp p "description")])
  else none

/-- Spec-side well-behavedness of a parameter entry, under which the
filter/map passes of the source cannot throw: the entry is not nullish,
and a query-located entry has a non-nullish `schema`. -/
def ParamOk (p : JsValue) : Prop :=
  isNullish p = false ∧
    (strictEqStr (jsProp p "in") "query" = true → isNullish (jsProp p "schema") = false)

instance : DecidablePred ParamOk := fun p => by
  unfold ParamOk
  infer_instance

/-- A path built from gap/name blocks followed by a tail: each block
contributes its gap verbatim and one brace-delimited variable segment. -/
def buildVarPath : List (String × String) → String → String
  | [], tail => tail
  | (gap, nm) :: rest, tail => gap ++ "\x7b" ++ nm ++ "\x7d" ++ buildVarPath rest tail

/-- The outcome of the loop body of `generateFakeData` for one property
entry, separated from the recursion on the remaining entries: an error, a
generated value for the key, or `none` when the entry is skipped. -/
def entryGen (fk : Faker) (rec : JsValue → Except RunError JsValue)
    (key : String) (value : JsValue) : Except RunError (Option JsValue) :=
  if ¬ hasTypeProperty value then
    .error (.schemaError ("Type property is missing for " ++ key))
  else if truthy value && strictEqStr (jsProp value "type") "string" then
    .ok (some (.str fk.productName))
  else if strictEqStr (jsProp value "type") "integer" then
    .ok (some (.num fk.intVal))
  else if strictEqStr (jsProp value "type") "array" && truthy (jsProp value "items") then
    match rec (jsProp value "items") with
    | .error e => .error e
    | .ok inner => .ok (some (.arr [inner]))
  else if strictEqStr (jsProp value "type") "object" then
    match rec value with
    | .error e => .error e
    | .ok inner => .ok (some inner)
  else .ok none

/-- The collection document the generator produces for a spec with a single
bodyless GET operation on `/p` (note the `body` field holding `undefined`,
which `JSON.stringify` drops). -/
def doc8 : JsValue :=
  .obj [("collection", .obj [
    ("info", .obj [
      ("name", .str "Generated Collection"),
      ("description", .str "Collection generated from Swagger file"),
      ("schema",
        .str "https://schema.getpostman.com/json/collection/v2.1.0/collection.json")]),
    ("item", .arr [
      .obj [
        ("name", .str "/p"),
        ("request", .obj [
          ("method", .str "GET"),
          ("header", .arr []),
          ("url", .obj [
            ("raw", .str "\x7b\x7bbase_url\x7d\x7d/p"),
            ("host", .arr [.str "\x7b\x7bbase_url\x7d\x7d"]),
            ("path", .arr [.str "p"]),
            ("query", .arr []),
            ("variable", .arr [])]),
          ("body", .undef)]),
        ("response", .arr [])]])])]

/-- What `doc8` becomes after a stringify–parse round trip: the
`body: undefined` field of its request is gone. -/
def doc8stripped : JsValue :=
  .obj [("collection", .obj [
    ("info", .obj [
      ("name", .str "Generated Collection"),
      ("description", .str "Collection generated from Swagger file"),
      ("schema",
        .str "https://schema.getpostman.com/json/collection/v2.1.0/collection.json")]),
    ("item", .arr [
      .obj [
        ("name", .str "/p"),
        ("request", .obj [
          ("method", .str "GET"),
          ("header", .arr []),
          ("url", .obj [
            ("raw", .str "\x7b\x7bbase_url\x7d\x7d/p"),
            ("host", .arr [.str "\x7b\x7bbase_url\x7d\x7d"]),
            ("path", .arr [.str "p"]),
            ("query", .arr []),
            ("variable", .arr [])])]),
        ("response", .arr [])]])])]

theorem genLoop_cons (fk : Faker) (rec : JsValue → Except RunError JsValue)
    (key : String) (value : JsValue) (rest : List (String × JsValue)) :
    genLoop fk rec ((key, value) :: rest) =
      match entryGen fk rec key value with
      | .error e => .error e
      | .ok none => genLoop fk rec rest
      | .ok (some g) =>
        match genLoop fk rec rest with
        | .error e => .error e
        | .ok out => .ok ((key, g) :: out) := by
  simp only [genLoop, entryGen]
  split_ifs <;> try rfl
  · cases rec (jsProp value "items") <;> rfl
  · cases rec value <;> rfl

theorem genLoop_prefix_error (fk : Faker) (rec : JsValue → Except RunError JsValue)
    (k : String) (v : JsValue) (post : List (String × JsValue))
    (hv : hasTypeProperty v = false) :
    ∀ (pre out : List (String × JsValue)), genLoop fk rec pre = .ok out →
      genLoop fk rec (pre ++ (k, v) :: post) =
        .error (.schemaError ("Type property is missing for " ++ k)) := by
  intro pre
  induction pre with
  | nil =>
    intro out _
    simp [genLoop, hv]
  | cons e pre' ih =>
    intro out h
    obtain ⟨key', value'⟩ := e
    rw [genLoop_cons] at h
    rw [List.cons_append, genLoop_cons]
    cases hstep : entryGen fk rec key' value' with
    | error err => rw [hstep] at h; exact absurd h (by simp)
    | ok og =>
      rw [hstep] at h
      cases og with
      | none => exact ih out h
      | some g =>
        cases hrest : genLoop fk rec pre' with
        | error err => rw [hrest] at h; exact absurd h (by simp)
        | ok out' => rw [ih out' hrest]

theorem jsSize_pos (v : JsValue) : 1 ≤ jsSize v := by
  cases v <;> simp [jsSize]

/-- Unfolding of `generateFakeData` on an object schema: the recursive
calls of the loop run at fuel `jsSizeF fs`. -/
theorem generateFakeData_obj (fk : Faker) (fs : List (String × JsValue)) :
    generateFakeData fk (.obj fs) =
      match objectEntries (jsProp (.obj fs) "properties") with
      | .error e => .error e
      | .ok entries =>
        match genLoop fk (fun v => genGo fk (jsSizeF fs) v) entries with
        | .error e => .error e
        | .ok out => .ok (.obj out) := by
  show genGo fk (jsSize (.obj fs)) (.obj fs) = _
  rw [show jsSize (JsValue.obj fs) = jsSizeF fs + 1 from by simp [jsSize, Nat.add_comm]]
  rfl

theorem lookupField_nonnil {fs : List (String × JsValue)} {key : String} {v : JsValue}
    (h : lookupField fs key = some v) : 1 ≤ jsSizeF fs := by
  cases fs with
  | nil => exact absurd h (by simp [lookupField])
  | cons e rest => obtain ⟨k, w⟩ := e; simp [jsSizeF]; omega

/-- C7: for every server URL, the Environment Generator is a pure function
producing an `environment` document whose name is the URL's host component
and whose single variable is `base_url` holding the full server URL,
enabled; in particular on `https://api.example.com` the name is
`api.example.com`. -/
theorem createEnvironment_spec :
    (∀ u : String, createEnvironment u = .obj [("environment", .obj [
        ("name", .str (urlHost u)),
        ("values", .arr [.obj [("key", .str "base_url"), ("value", .str u),
                              ("enabled", .bool true)]])])]) ∧
    createEnvironment "https://api.example.com" = .obj [("environment", .obj [
        ("name", .str "api.example.com"),
        ("values", .arr [.obj [("key", .str "base_url"),
                              ("value", .str "https://api.example.com"),
                              ("enabled", .bool true)]])])] :=
  ⟨fun _ => rfl, rfl⟩

/-- C9: supporting theorem for the missing-await defect of `main`: exactly
the two `saveToFile` calls are the file-write steps of the pipeline, and
they are the only steps whose errors are not reported by the top-level
`main().catch(console.error)` (their promises are discarded instead of
awaited, contradicting the claimed propagation policy). -/
theorem main_saveToFile_not_awaited :
    (mainPipeline.filter (fun s => s.kind == .fileWrite)).map PipelineStep.descr =
      ["saveToFile(environment_<host>.json, environment)",
       "saveToFile(collection_generated.json, collection)"] ∧
    (mainPipeline.filter (fun s => s.kind == .fileWrite)).all
      (fun s => errorReportedAtTopLevel s == false) = true ∧
    (mainPipeline.filter (fun s => s.kind != .fileWrite)).all
      (fun s => errorReportedAtTopLevel s == true) = true := by
  refine ⟨rfl, rfl, rfl⟩

/-- C1 counterexample: a property node whose declared `type` is `boolean`
(not one of string, integer, array, object) does not make the Fake Data
Generator fail with a `SchemaError`: generation succeeds, silently omitting
the property. -/
theorem generateFakeData_boolean_type_no_error :
    generateFakeData someFaker
      (.obj [("properties", .obj [("flag", .obj [("type", .str "boolean")])])]) =
      .ok (.obj []) ∧
    (.ok (.obj []) : Except RunError JsValue) ≠
      .error (.schemaError "Type property is missing for flag") :=
  ⟨rfl, by simp⟩

/-- C1 (amended): the generator fails with a `SchemaError` naming a
property whose node fails the `hasTypeProperty` check (its `type` field
missing or falsy) as soon as the loop reaches it — in particular it names
the first such property whenever all earlier properties generate
successfully — whereas a property whose node carries a truthy `type` that
matches none of the four recognized branches (or an `array` type with a
falsy `items`) is skipped silently, producing no error and no output key. -/
theorem generateFakeData_missing_type_behavior :
    (∀ (fk : Faker) (fs pfs pre post out : List (String × JsValue)) (k : String) (v : JsValue),
      lookupField fs "properties" = some (.obj pfs) →
      pfs = pre ++ (k, v) :: post →
      hasTypeProperty v = false →
      genLoop fk (fun w => genGo fk (jsSizeF fs) w) pre = .ok out →
      generateFakeData fk (.obj fs) =
        .error (.schemaError ("Type property is missing for " ++ k))) ∧
    (∀ (fk : Faker) (rec : JsValue → Except RunError JsValue) (k : String) (v : JsValue)
        (rest : List (String × JsValue)),
      hasTypeProperty v = true →
      strictEqStr (jsProp v "type") "string" = false →
      strictEqStr (jsProp v "type") "integer" = false →
      (strictEqStr (jsProp v "type") "array" = true → truthy (jsProp v "items") = false) →
      strictEqStr (jsProp v "type") "object" = false →
      genLoop fk rec ((k, v) :: rest) = genLoop fk rec rest) := by
  constructor
  · intro fk fs pfs pre post out k v hlook hsplit hv hpre
    rw [generateFakeData_obj]
    simp only [jsProp, hlook, Option.getD_some, objectEntries]
    rw [hsplit, genLoop_prefix_error fk _ k v post hv pre out hpre]
  · intro fk rec k v rest htype hs hi ha ho
    rw [genLoop_cons]
    simp only [entryGen, htype, hs, hi, ho]
    by_cases harr : strictEqStr (jsProp v "type") "array" = true
    · simp [harr, ha harr]
    · simp only [Bool.not_eq_true] at harr
      simp [harr, htype]

/-- C1 witness: on a schema whose first property is a good string property
and whose second property `b` has no `type` field, generation fails with
the `SchemaError` naming `b`; and a `boolean`-typed entry is skipped by the
loop without an error. -/
theorem generateFakeData_missing_type_behavior_witness :
    generateFakeData someFaker
      (.obj [("properties", .obj [("a", .obj [("type", .str "string")]), ("b", .obj [])])]) =
      .error (.schemaError "Type property is missing for b") ∧
    genLoop someFaker (fun _ => .ok .null) [("flag", .obj [("type", .str "boolean")])] =
      .ok [] := by
  constructor
  · exact generateFakeData_missing_type_behavior.1 someFaker
      [("properties", .obj [("a", .obj [("type", .str "string")]), ("b", .obj [])])]
      [("a", .obj [("type", .str "string")]), ("b", .obj [])]
      [("a", .obj [("type", .str "string")])] [] [("a", .str "Awesome Granite Chair")]
      "b" (.obj []) rfl rfl rfl rfl
  · rw [generateFakeData_missing_type_behavior.2 someFaker (fun _ => .ok .null)
      "flag" (.obj [("type", .str "boolean")]) [] rfl rfl rfl (by decide) rfl]
    rfl

/-- C10: a schema node lacking a `properties` field makes the Fake Data
Generator fail with a runtime `TypeError` (not a `SchemaError`): reading
`properties` off `undefined` throws, and `Object.entries(undefined)` throws
for an object schema without that field; consequently an operation whose
request-body reference names a schema absent from the component schemas
fails the same way inside item construction, as does an `object`-typed
property node without a nested `properties` mapping. -/
theorem generateFakeData_missing_properties_typeError :
    (generateFakeData someFaker .undef =
      .error (.typeError "Cannot read properties of undefined (reading 'properties')")) ∧
    (∀ (fk : Faker) (fs : List (String × JsValue)),
      lookupField fs "properties" = none →
      generateFakeData fk (.obj fs) =
        .error (.typeError "Cannot convert undefined or null to object")) ∧
    (∀ (fk : Faker) (schemas : List (String × JsValue)) (path method : String)
        (details : JsValue) (r : String),
      resolveBodyRef details = .ok (.str r) →
      truthy (JsValue.str r) = true →
      lookupField schemas (lastSegment r) = none →
      createItem fk schemas path method details =
        .error (.typeError "Cannot read properties of undefined (reading 'properties')")) ∧
    (∀ (fk : Faker) (fs pfs vfs : List (String × JsValue)) (k : String),
      lookupField fs "properties" = some (.obj ((k, .obj vfs) :: pfs)) →
      lookupField vfs "type" = some (.str "object") →
      lookupField vfs "properties" = none →
      generateFakeData fk (.obj fs) =
        .error (.typeError "Cannot convert undefined or null to object")) := by
  refine ⟨rfl, ?_, ?_, ?_⟩
  · intro fk fs hlook
    rw [generateFakeData_obj]
    simp [jsProp, hlook, objectEntries]
  · intro fk schemas path method details r href htr hlook
    have hgen : generateFakeData fk ((lookupField schemas (lastSegment r)).getD JsValue.undef) =
        .error (.typeError "Cannot read properties of undefined (reading 'properties')") := by
      rw [hlook]; rfl
    have hbody : buildBody fk schemas details =
        .error (.typeError "Cannot read properties of undefined (reading 'properties')") := by
      unfold buildBody
      rw [href]
      simp [htr, hgen]
    unfold createItem
    rw [hbody]
  · intro fk fs pfs vfs k hlook htype hprops
    rw [generateFakeData_obj]
    simp only [jsProp, hlook, Option.getD_some, objectEntries]
    rw [genLoop_cons]
    have hrec : genGo fk (jsSizeF fs) (.obj vfs) =
        .error (.typeError "Cannot convert undefined or null to object") := by
      obtain ⟨m, hm⟩ : ∃ m, jsSizeF fs = m + 1 :=
        ⟨jsSizeF fs - 1, by have := lookupField_nonnil hlook; omega⟩
      rw [hm]
      simp [genGo, jsGet, jsProp, hprops, objectEntries]
    have hstep : entryGen fk (fun v => genGo fk (jsSizeF fs) v) k (.obj vfs) =
        .error (.typeError "Cannot convert undefined or null to object") := by
      simp [entryGen, hasTypeProperty, truthy, jsProp, htype, strictEqStr, hrec]
    rw [hstep]

/-- C10 witness: concrete instances of the three conditional parts — an
object schema with no `properties` field, an item whose body reference
names an absent schema, and an `object`-typed property without nested
`properties` — all failing with a `TypeError`. -/
theorem generateFakeData_missing_properties_typeError_witness :
    generateFakeData someFaker (.obj [("title", .str "x")]) =
      .error (.typeError "Cannot convert undefined or null to object") ∧
    createItem someFaker [] "/p" "post"
      (.obj [("requestBody", .obj [("content", .obj [("application/json",
        .obj [("schema", .obj [("$ref", .str "#/components/schemas/Missing")])])])])]) =
      .error (.typeError "Cannot read properties of undefined (reading 'properties')") ∧
    generateFakeData someFaker
      (.obj [("properties", .obj [("pet", .obj [("type", .str "object")])])]) =
      .error (.typeError "Cannot convert undefined or null to object") := by
  refine ⟨?_, ?_, ?_⟩
  · exact generateFakeData_missing_properties_typeError.2.1 someFaker
      [("title", .str "x")] rfl
  · exact generateFakeData_missing_properties_typeError.2.2.1 someFaker [] "/p" "post"
      (.obj [("requestBody", .obj [("content", .obj [("application/json",
        .obj [("schema", .obj [("$ref", .str "#/components/schemas/Missing")])])])])])
      "#/components/schemas/Missing" rfl rfl rfl
  · exact generateFakeData_missing_properties_typeError.2.2.2 someFaker
      [("properties", .obj [("pet", .obj [("type", .str "object")])])]
      [] [("type", .str "object")] "pet" rfl rfl rfl

theorem jsGet_of_not_nullish {p : JsValue} (h : isNullish p = false) (key : String) :
    jsGet p key = .ok (jsProp p key) := by
  cases p <;> simp_all [isNullish, jsGet]

/-- The `name` of every successfully generated item is the operation's
`summary` when that is truthy, and the raw path string otherwise. -/
theorem createItem_name (fk : Faker) (schemas : List (String × JsValue))
    (path method : String) (details item summary : JsValue)
    (h : createItem fk schemas path method details = .ok item)
    (hs : jsGet details "summary" = .ok summary) :
    jsProp item "name" = (if truthy summary then summary else JsValue.str path) := by
  unfold createItem at h
  rcases hb : buildBody fk schemas details with e | body
  · simp [hb] at h
  · simp only [hb] at h
    rcases hq : buildQueryParams fk details with e | qp
    · simp [hq] at h
    · simp only [hq] at h
      rw [hs] at h
      rcases hp : pathVariables path with e | pv
      · simp [hp] at h
      · simp only [hp, Except.ok.injEq] at h
        subst h
        simp [jsProp, lookupField]

/-- C4 counterexample: an operation whose `summary` is present but empty
gets the raw path as its item name, not the summary — `summary || path`
tests truthiness, not presence. -/
theorem createItem_empty_summary_uses_path :
    createItem someFaker [] "/p" "get" (.obj [("summary", .str "")]) =
      .ok (.obj [
        ("name", .str "/p"),
        ("request", .obj [
          ("method", .str "GET"),
          ("header", .arr []),
          ("url", .obj [
            ("raw", .str "\x7b\x7bbase_url\x7d\x7d/p"),
            ("host", .arr [.str "\x7b\x7bbase_url\x7d\x7d"]),
            ("path", .arr [.str "p"]),
            ("query", .arr []),
            ("variable", .arr [])]),
          ("body", .undef)]),
        ("response", .arr [])]) ∧
    lookupField [("summary", JsValue.str "")] "summary" = some (.str "") ∧
    JsValue.str "/p" ≠ JsValue.str "" :=
  ⟨rfl, rfl, by simp⟩

/-- C4 (amended): on the path `/pets/\x7bpetId\x7d` with a GET operation
carrying no summary, the generated item is named by the raw path, has
method `GET`, URL raw `\x7b\x7bbase_url\x7d\x7d/pets/\x7bpetId\x7d`, host
`[\x7b\x7bbase_url\x7d\x7d]`, path segments `["pets", "\x7bpetId\x7d"]`
and exactly one path variable `petId` with empty value; in general the
item name is the operation's summary when the summary is truthy
(present and non-empty), and the raw path string otherwise. -/
theorem createItem_pets_petId :
    createItem someFaker [] "/pets/\x7bpetId\x7d" "get" (.obj []) =
      .ok (.obj [
        ("name", .str "/pets/\x7bpetId\x7d"),
        ("request", .obj [
          ("method", .str "GET"),
          ("header", .arr []),
          ("url", .obj [
            ("raw", .str "\x7b\x7bbase_url\x7d\x7d/pets/\x7bpetId\x7d"),
            ("host", .arr [.str "\x7b\x7bbase_url\x7d\x7d"]),
            ("path", .arr [.str "pets", .str "\x7bpetId\x7d"]),
            ("query", .arr []),
            ("variable", .arr [.obj [("key", .str "petId"), ("value", .str ""),
                                     ("description", .str "")]])]),
          ("body", .undef)]),
        ("response", .arr [])]) ∧
    (∀ (fk : Faker) (schemas : List (String × JsValue)) (path method : String)
        (details item summary : JsValue),
      createItem fk schemas path method details = .ok item →
      jsGet details "summary" = .ok summary →
      jsProp item "name" = (if truthy summary then summary else JsValue.str path)) :=
  ⟨rfl, fun fk schemas path method details item summary h hs =>
    createItem_name fk schemas path method details item summary h hs⟩

/-- C4 witness: the general name clause applied to an operation whose
summary is the non-empty string `List pets`. -/
theorem createItem_pets_petId_witness :
    jsProp (.obj [
      ("name", .str "List pets"),
      ("request", .obj [
        ("method", .str "GET"),
        ("header", .arr []),
        ("url", .obj [
          ("raw", .str "\x7b\x7bbase_url\x7d\x7d/pets"),
          ("host", .arr [.str "\x7b\x7bbase_url\x7d\x7d"]),
          ("path", .arr [.str "pets"]),
          ("query", .arr []),
          ("variable", .arr [])]),
        ("body", .undef)]),
      ("response", .arr [])]) "name" =
      (if truthy (.str "List pets") then JsValue.str "List pets" else JsValue.str "/pets") :=
  createItem_pets_petId.2 someFaker [] "/pets" "get"
    (.obj [("summary", .str "List pets")]) _ (.str "List pets") rfl rfl

theorem keepQuery_ok (ps : List JsValue) (h : ∀ p ∈ ps, isNullish p = false) :
    keepQuery ps = .ok (ps.filter (fun p => strictEqStr (jsProp p "in") "query")) := by
  induction ps with
  | nil => rfl
  | cons p rest ih =>
    have hp := h p (by simp)
    rw [keepQuery, jsGet_of_not_nullish hp, ih (fun q hq => h q (by simp [hq]))]
    by_cases hq : strictEqStr (jsProp p "in") "query" = true <;>
      simp [List.filter_cons, hq]

theorem mapQuery_ok (fk : Faker) (qs : List JsValue)
    (h : ∀ p ∈ qs, isNullish p = false ∧ isNullish (jsProp p "schema") = false) :
    mapQuery fk qs = .ok (qs.map (fun p => .obj [
      ("key", jsProp p "name"),
      ("value", if strictEqStr (jsProp (jsProp p "schema") "type") "array"
        then JsValue.str (jsonStringify 0 (.arr [.str fk.word]))
        else JsValue.str fk.word),
      ("description", jsProp p "description")])) := by
  induction qs with
  | nil => rfl
  | cons p rest ih =>
    obtain ⟨hp, hps⟩ := h p (by simp)
    simp only [mapQuery, jsGet_of_not_nullish hp, jsGet_of_not_nullish hps,
      ih (fun q hq => h q (by simp [hq])), List.map_cons]

theorem filter_map_eq_filterMap (ps : List JsValue) (f : JsValue → Bool)
    (g : JsValue → JsValue) :
    (ps.filter f).map g = ps.filterMap (fun p => if f p then some (g p) else none) := by
  induction ps with
  | nil => rfl
  | cons p rest ih =>
    by_cases hp : f p <;> simp [List.filter_cons, List.filterMap_cons, hp, ih]

/-- C5: for every operation whose `parameters` is an array of well-behaved
entries, the generator produces exactly one key/value/description query
entry per parameter located in the query (in order), the value being a
JSON-encoded one-element array of the placeholder word for an
`array`-typed schema and a bare placeholder word otherwise, and no entry
for parameters with other locations; the same list appears as the `query`
of the generated item's URL. -/
theorem createItem_query_entries :
    ∀ (fk : Faker) (details : JsValue) (ps : List JsValue),
      jsGet details "parameters" = .ok (.arr ps) →
      (∀ p ∈ ps, ParamOk p) →
      buildQueryParams fk details = .ok (.arr (ps.filterMap (querySpecEntry fk))) ∧
      (∀ (schemas : List (String × JsValue)) (path method : String) (item : JsValue),
        createItem fk schemas path method details = .ok item →
        jsProp (jsProp (jsProp item "request") "url") "query" =
          .arr (ps.filterMap (querySpecEntry fk))) := by
  intro fk details ps hparams hok
  have hq : buildQueryParams fk details = .ok (.arr (ps.filterMap (querySpecEntry fk))) := by
    unfold buildQueryParams
    rw [hparams]
    have hkeep := keepQuery_ok ps (fun p hp => (hok p hp).1)
    have hmap := mapQuery_ok fk (ps.filter (fun p => strictEqStr (jsProp p "in") "query"))
      (fun p hp => by
        rw [List.mem_filter] at hp
        exact ⟨(hok p hp.1).1, (hok p hp.1).2 hp.2⟩)
    simp only [isNullish, hkeep, hmap]
    rw [filter_map_eq_filterMap]
    rfl
  refine ⟨hq, ?_⟩
  intro schemas path method item h
  unfold createItem at h
  rcases hb : buildBody fk schemas details with e | body
  · simp [hb] at h
  · simp only [hb] at h
    rw [hq] at h
    rcases hs : jsGet details "summary" with e | summary
    · simp [hs] at h
    · simp only [hs] at h
      rcases hp : pathVariables path with e | pv
      · simp [hp] at h
      · simp only [hp, Except.ok.injEq] at h
        subst h
        simp [jsProp, lookupField]

/-- C5 witness: an operation with a query parameter `limit` of type
`integer` (bare placeholder value), a path-located parameter (no entry),
and a query parameter `tags` of type `array` (JSON-encoded one-element
array value). -/
theorem createItem_query_entries_witness :
    buildQueryParams someFaker (.obj [("parameters", .arr [
      .obj [("name", .str "limit"), ("in", .str "query"),
            ("description", .str "max"), ("schema", .obj [("type", .str "integer")])],
      .obj [("name", .str "petId"), ("in", .str "path"),
            ("schema", .obj [("type", .str "integer")])],
      .obj [("name", .str "tags"), ("in", .str "query"),
            ("schema", .obj [("type", .str "array")])]])]) =
      .ok (.arr [
        .obj [("key", .str "limit"), ("value", .str "word"),
              ("description", .str "max")],
        .obj [("key", .str "tags"), ("value", .str "[\"word\"]"),
              ("description", .undef)]]) := by
  have := (createItem_query_entries someFaker (.obj [("parameters", .arr [
      .obj [("name", .str "limit"), ("in", .str "query"),
            ("description", .str "max"), ("schema", .obj [("type", .str "integer")])],
      .obj [("name", .str "petId"), ("in", .str "path"),
            ("schema", .obj [("type", .str "integer")])],
      .obj [("name", .str "tags"), ("in", .str "query"),
            ("schema", .obj [("type", .str "array")])]])])
    [.obj [("name", .str "limit"), ("in", .str "query"),
            ("description", .str "max"), ("schema", .obj [("type", .str "integer")])],
      .obj [("name", .str "petId"), ("in", .str "path"),
            ("schema", .obj [("type", .str "integer")])],
      .obj [("name", .str "tags"), ("in", .str "query"),
            ("schema", .obj [("type", .str "array")])]] rfl (by decide)).1
  rw [this]
  rfl

/-- The `body` of every successfully generated item is the value `buildBody`
produced for it. -/
theorem createItem_body (fk : Faker) (schemas : List (String × JsValue))
    (path method : String) (details item body : JsValue)
    (hb : buildBody fk schemas details = .ok body)
    (h : createItem fk schemas path method details = .ok item) :
    jsProp (jsProp item "request") "body" = body := by
  unfold createItem at h
  rw [hb] at h
  rcases hq : buildQueryParams fk details with e | qp
  · simp [hq] at h
  · simp only [hq] at h
    rcases hs : jsGet details "summary" with e | summary
    · simp [hs] at h
    · simp only [hs] at h
      rcases hp : pathVariables path with e | pv
      · simp [hp] at h
      · simp only [hp, Except.ok.injEq] at h
        subst h
        simp [jsProp, lookupField]

/-- C3 counterexample: a request body whose reference pointer is the empty
string, naming a schema that is present under the key `""` in the
component schemas, produces an item with no body: the code tests the
pointer for truthiness, so the empty pointer is treated as `no body`
although the claim requires a raw-mode body for every pointer naming a
present schema. -/
theorem createItem_empty_ref_no_body :
    lookupField [("", JsValue.obj [("properties", .obj [])])] (lastSegment "") =
      some (.obj [("properties", .obj [])]) ∧
    generateFakeData someFaker (.obj [("properties", .obj [])]) = .ok (.obj []) ∧
    createItem someFaker [("", .obj [("properties", .obj [])])] "/p" "post"
      (.obj [("requestBody", .obj [("content", .obj [("application/json",
        .obj [("schema", .obj [("$ref", .str "")])])])])]) =
      .ok (.obj [
        ("name", .str "/p"),
        ("request", .obj [
          ("method", .str "POST"),
          ("header", .arr []),
          ("url", .obj [
            ("raw", .str "\x7b\x7bbase_url\x7d\x7d/p"),
            ("host", .arr [.str "\x7b\x7bbase_url\x7d\x7d"]),
            ("path", .arr [.str "p"]),
            ("query", .arr []),
            ("variable", .arr [])]),
          ("body", .undef)]),
        ("response", .arr [])]) ∧
    JsValue.undef ≠ .obj [("mode", .str "raw"),
                          ("raw", .str (jsonStringify 0 (.obj [])))] :=
  ⟨rfl, rfl, rfl, by simp⟩

/-- C3 (amended): for every operation whose JSON request body carries a
non-empty (truthy) reference pointer, resolved by its last
slash-separated segment to a schema present in the component schemas on
which fake-data generation succeeds, the generated item's body is a
raw-mode body whose raw payload is the compact JSON serialization of the
generated fake data; and for every operation declaring no request body
(its `requestBody` property absent), the generated item's body is
`undefined`. -/
theorem createItem_body_resolution :
    (∀ (fk : Faker) (schemas : List (String × JsValue)) (path method : String)
        (details item fake schema : JsValue) (r : String),
      resolveBodyRef details = .ok (.str r) →
      r ≠ "" →
      lookupField schemas (lastSegment r) = some schema →
      generateFakeData fk schema = .ok fake →
      createItem fk schemas path method details = .ok item →
      jsProp (jsProp item "request") "body" =
        .obj [("mode", .str "raw"), ("raw", .str (jsonStringify 0 fake))]) ∧
    (∀ (fk : Faker) (schemas : List (String × JsValue)) (path method : String)
        (details item : JsValue),
      isNullish details = false →
      jsProp details "requestBody" = .undef →
      createItem fk schemas path method details = .ok item →
      jsProp (jsProp item "request") "body" = .undef) := by
  constructor
  · intro fk schemas path method details item fake schema r href hr hlook hfake h
    have hb : buildBody fk schemas details =
        .ok (.obj [("mode", .str "raw"), ("raw", .str (jsonStringify 0 fake))]) := by
      unfold buildBody
      rw [href]
      have ht : truthy (JsValue.str r) = true := by simp [truthy, hr]
      simp only [ht, if_true]
      rw [hlook]
      simp only [Option.getD_some, hfake]
    exact createItem_body fk schemas path method details item _ hb h
  · intro fk schemas path method details item hdet hreq h
    have hres : resolveBodyRef details = .ok .undef := by
      unfold resolveBodyRef
      rw [jsGet_of_not_nullish hdet, hreq]
      rfl
    have hb : buildBody fk schemas details = .ok .undef := by
      unfold buildBody
      rw [hres]
      rfl
    exact createItem_body fk schemas path method details item _ hb h

/-- C3 witness: a `POST /pets` operation referencing
`#/components/schemas/Pet` gets the serialized fake `Pet` as its raw body,
and a bodiless `GET` operation gets an `undefined` body. -/
theorem createItem_body_resolution_witness :
    jsProp (jsProp (.obj [
      ("name", .str "/pets"),
      ("request", .obj [
        ("method", .str "POST"),
        ("header", .arr []),
        ("url", .obj [
          ("raw", .str "\x7b\x7bbase_url\x7d\x7d/pets"),
          ("host", .arr [.str "\x7b\x7bbase_url\x7d\x7d"]),
          ("path", .arr [.str "pets"]),
          ("query", .arr []),
          ("variable", .arr [])]),
        ("body", .obj [("mode", .str "raw"), ("raw", .str "\x7b\"id\":42\x7d")])]),
      ("response", .arr [])]) "request") "body" =
      .obj [("mode", .str "raw"),
            ("raw", .str (jsonStringify 0 (.obj [("id", .num 42)])))] ∧
    jsProp (jsProp (.obj [
      ("name", .str "/pets"),
      ("request", .obj [
        ("method", .str "GET"),
        ("header", .arr []),
        ("url", .obj [
          ("raw", .str "\x7b\x7bbase_url\x7d\x7d/pets"),
          ("host", .arr [.str "\x7b\x7bbase_url\x7d\x7d"]),
          ("path", .arr [.str "pets"]),
          ("query", .arr []),
          ("variable", .arr [])]),
        ("body", .undef)]),
      ("response", .arr [])]) "request") "body" = .undef := by
  constructor
  · exact createItem_body_resolution.1 someFaker
      [("Pet", .obj [("properties", .obj [("id", .obj [("type", .str "integer")])])])]
      "/pets" "post"
      (.obj [("requestBody", .obj [("content", .obj [("application/json",
        .obj [("schema", .obj [("$ref", .str "#/components/schemas/Pet")])])])])])
      _ (.obj [("id", .num 42)])
      (.obj [("properties", .obj [("id", .obj [("type", .str "integer")])])])
      "#/components/schemas/Pet" rfl (by decide) rfl rfl rfl
  · exact createItem_body_resolution.2 someFaker [] "/pets" "get" (.obj []) _ rfl rfl rfl

theorem scanBraces_none_skip (g : List Char) (hg : g.contains '\x7b' = false)
    (rest : List Char) : scanBraces (g ++ rest) none = scanBraces rest none := by
  induction g with
  | nil => rfl
  | cons c g' ih =>
    simp only [List.contains_cons, Bool.or_eq_false_iff] at hg
    have hc : ¬ c = '\x7b' := by
      intro hcc
      rw [hcc] at hg
      simp at hg
    simp only [List.cons_append, scanBraces, if_neg hc]
    exact ih hg.2

theorem scanBraces_none_nil (g : List Char) (hg : g.contains '\x7b' = false) :
    scanBraces g none = [] := by
  have := scanBraces_none_skip g hg []
  simpa using this

theorem scanBraces_cons_none (c : Char) (rest : List Char) :
    scanBraces (c :: rest) none =
      if c = '\x7b' then scanBraces rest (some [c]) else scanBraces rest none := rfl

theorem scanBraces_cons_some (c : Char) (rest acc : List Char) :
    scanBraces (c :: rest) (some acc) =
      if c = '\x7d' then String.mk (acc.reverse ++ [c]) :: scanBraces rest none
      else scanBraces rest (some (c :: acc)) := rfl

/-- Builds `String.mk` equalities from list equalities. -/
theorem strMk_eq (l : List Char) (s : String) (h : l = s.data) : String.mk l = s := by
  subst h
  cases s
  rfl

theorem scanBraces_some_name (n : List Char) (hn : n.contains '\x7d' = false)
    (acc rest : List Char) :
    scanBraces (n ++ '\x7d' :: rest) (some acc) =
      String.mk (acc.reverse ++ n ++ ['\x7d']) :: scanBraces rest none := by
  induction n generalizing acc with
  | nil => simp [scanBraces]
  | cons c n' ih =>
    simp only [List.contains_cons, Bool.or_eq_false_iff] at hn
    have hc : ¬ c = '\x7d' := by
      intro hcc
      rw [hcc] at hn
      simp at hn
    rw [List.cons_append, scanBraces_cons_some, if_neg hc, ih hn.2 (c :: acc)]
    simp

theorem buildVarPath_toList (parts : List (String × String)) (tail : String) :
    (buildVarPath parts tail).toList =
      match parts with
      | [] => tail.toList
      | (g, n) :: rest =>
        g.toList ++ '\x7b' :: (n.toList ++ '\x7d' :: (buildVarPath rest tail).toList) := by
  cases parts with
  | nil => rfl
  | cons gn rest =>
    obtain ⟨g, n⟩ := gn
    show (g ++ "\x7b" ++ n ++ "\x7d" ++ buildVarPath rest tail).toList = _
    simp [String.toList, String.data_append]

theorem scanBraces_buildVarPath (parts : List (String × String)) (tail : String)
    (hparts : ∀ gn ∈ parts, gn.1.toList.contains '\x7b' = false ∧
      gn.2.toList.contains '\x7d' = false)
    (htail : tail.toList.contains '\x7b' = false) :
    scanBraces (buildVarPath parts tail).toList none =
      parts.map (fun gn => "\x7b" ++ gn.2 ++ "\x7d") := by
  induction parts with
  | nil => simpa [buildVarPath] using scanBraces_none_nil tail.toList htail
  | cons gn rest ih =>
    obtain ⟨g, n⟩ := gn
    have hg := (hparts (g, n) (by simp)).1
    have hn := (hparts (g, n) (by simp)).2
    rw [buildVarPath_toList]
    simp only
    rw [scanBraces_none_skip g.toList hg, scanBraces_cons_none, if_pos rfl,
      scanBraces_some_name n.toList hn ['\x7b'] (buildVarPath rest tail).toList,
      ih (fun q hq => hparts q (by simp [hq]))]
    simp only [List.map_cons, List.reverse_cons, List.reverse_nil, List.nil_append]
    congr 1

/-- Stripping the braces of a brace-delimited variable segment recovers
the name. -/
theorem jsSlice1m1_braces (n : String) : jsSlice1m1 ("\x7b" ++ n ++ "\x7d") = n := by
  unfold jsSlice1m1
  apply strMk_eq
  show ((("\x7b" ++ n ++ "\x7d").data.drop 1).dropLast) = n.data
  rw [String.data_append, String.data_append]
  show ((('\x7b' :: n.data ++ ['\x7d']).drop 1).dropLast) = n.data
  simp

/-- C6 counterexample: the path `/a/\x7bx\x7d/\x7bx\x7d` has one distinct
bracketed name but the generator emits two identical path-variable
entries, one per occurrence. -/
theorem pathVariables_duplicate_entries :
    pathVariables "/a/\x7bx\x7d/\x7bx\x7d" =
      .ok (.arr [
        .obj [("key", .str "x"), ("value", .str ""), ("description", .str "")],
        .obj [("key", .str "x"), ("value", .str ""), ("description", .str "")]]) ∧
    [JsValue.obj [("key", .str "x"), ("value", .str ""), ("description", .str "")],
     JsValue.obj [("key", .str "x"), ("value", .str ""), ("description", .str "")]] ≠
    [JsValue.obj [("key", .str "x"), ("value", .str ""), ("description", .str "")]] :=
  ⟨rfl, by simp⟩

/-- C6 (amended): for every path assembled from brace-free gaps and
brace-delimited variable segments, the generator emits exactly one
path-variable entry per occurrence of a bracketed segment (duplicated
names are repeated), in order, each with the bracket-stripped name as key
and an empty value; a path containing no opening brace at all yields an
empty variable list (the `parts = []` case). -/
theorem pathVariables_per_occurrence :
    ∀ (parts : List (String × String)) (tail : String),
      (∀ gn ∈ parts, gn.1.toList.contains '\x7b' = false ∧
        gn.2.toList.contains '\x7d' = false) →
      tail.toList.contains '\x7b' = false →
      pathVariables (buildVarPath parts tail) =
        .ok (.arr (parts.map (fun gn => .obj [("key", .str gn.2), ("value", .str ""),
                                              ("description", .str "")]))) := by
  intro parts tail hparts htail
  have hscan := scanBraces_buildVarPath parts tail hparts htail
  have hmap : ∀ (l : List (String × String)),
      (l.map (fun gn => "\x7b" ++ gn.2 ++ "\x7d")).map (fun v =>
        JsValue.obj [("key", .str (jsSlice1m1 v)), ("value", .str ""),
                     ("description", .str "")]) =
      l.map (fun gn => JsValue.obj [("key", .str gn.2), ("value", .str ""),
                                    ("description", .str "")]) := by
    intro l
    induction l with
    | nil => rfl
    | cons q qs ihq => simp only [List.map_cons, ihq, jsSlice1m1_braces]
  unfold pathVariables
  cases parts with
  | nil =>
    have : jsIncludesChar (buildVarPath [] tail) '\x7b' = false := by
      simpa [jsIncludesChar, buildVarPath] using htail
    simp [this]
  | cons gn rest =>
    obtain ⟨g, n⟩ := gn
    have hincl : jsIncludesChar (buildVarPath ((g, n) :: rest) tail) '\x7b' = true := by
      unfold jsIncludesChar
      rw [buildVarPath_toList]
      simp
    rw [if_pos hincl]
    unfold jsMatchBraces
    rw [hscan]
    simp only [List.map_cons]
    have := hmap ((g, n) :: rest)
    simp only [List.map_cons] at this
    rw [this]

/-- C6 witness: the amended statement at the concrete path
`/pets/\x7bpetId\x7d`: exactly one entry, key `petId`, empty value. -/
theorem pathVariables_per_occurrence_witness :
    pathVariables (buildVarPath [("/pets/", "petId")] "") =
      .ok (.arr [.obj [("key", .str "petId"), ("value", .str ""),
                       ("description", .str "")]]) :=
  pathVariables_per_occurrence [("/pets/", "petId")] "" (by decide) (by decide)

theorem jsSizeF_lookup {fs : List (String × JsValue)} {k : String} {v : JsValue}
    (h : lookupField fs k = some v) : jsSize v < jsSizeF fs := by
  induction fs with
  | nil => exact absurd h (by simp [lookupField])
  | cons e rest ih =>
    obtain ⟨k', v'⟩ := e
    by_cases hk : k' = k
    · simp only [lookupField, if_pos hk, Option.some.injEq] at h
      subst h
      simp [jsSizeF]
      omega
    · simp only [lookupField, if_neg hk] at h
      have := ih h
      simp [jsSizeF]
      omega

theorem jsSizeF_mem {pfs : List (String × JsValue)} {kv : String × JsValue}
    (h : kv ∈ pfs) : jsSize kv.2 < jsSizeF pfs := by
  induction pfs with
  | nil => exact absurd h (List.not_mem_nil kv)
  | cons e rest ih =>
    obtain ⟨k', v'⟩ := e
    rcases List.mem_cons.mp h with he | he
    · subst he
      simp [jsSizeF]
      omega
    · have := ih he
      simp [jsSizeF]
      omega

theorem truthy_obj (fs : List (String × JsValue)) : truthy (.obj fs) = true := rfl

theorem truthy_str (s : String) : truthy (.str s) = (s != "") := rfl

theorem entryGen_str (fk : Faker) (rec : JsValue → Except RunError JsValue)
    (k : String) (vfs : List (String × JsValue))
    (h : lookupField vfs "type" = some (.str "string")) :
    entryGen fk rec k (.obj vfs) = .ok (some (.str fk.productName)) := by
  simp [entryGen, hasTypeProperty, truthy, jsProp, h, strictEqStr]

theorem entryGen_int (fk : Faker) (rec : JsValue → Except RunError JsValue)
    (k : String) (vfs : List (String × JsValue))
    (h : lookupField vfs "type" = some (.str "integer")) :
    entryGen fk rec k (.obj vfs) = .ok (some (.num fk.intVal)) := by
  simp [entryGen, hasTypeProperty, truthy, jsProp, h, strictEqStr]

theorem entryGen_arr (fk : Faker) (rec : JsValue → Except RunError JsValue)
    (k : String) (vfs : List (String × JsValue)) (it : JsValue)
    (h : lookupField vfs "type" = some (.str "array"))
    (hit : lookupField vfs "items" = some it) (htr : truthy it = true) :
    entryGen fk rec k (.obj vfs) =
      match rec it with
      | .error e => .error e
      | .ok inner => .ok (some (.arr [inner])) := by
  simp [entryGen, hasTypeProperty, jsProp, h, hit, strictEqStr, htr, truthy_obj, truthy_str]

theorem entryGen_obj (fk : Faker) (rec : JsValue → Except RunError JsValue)
    (k : String) (vfs : List (String × JsValue))
    (h : lookupField vfs "type" = some (.str "object")) :
    entryGen fk rec k (.obj vfs) =
      match rec (.obj vfs) with
      | .error e => .error e
      | .ok inner => .ok (some inner) := by
  simp [entryGen, hasTypeProperty, truthy, jsProp, h, strictEqStr]

theorem fakeMatches_of (vfs : List (String × JsValue)) (out : JsValue) (ty : String)
    (hty : lookupField vfs "type" = some (.str ty))
    (h1 : ty = "string" → ∃ s, out = .str s) (h2 : ty = "integer" → ∃ n, out = .num n)
    (h3 : ty = "array" → ∃ e, out = .arr [e]) (h4 : ty = "object" → ∃ g, out = .obj g) :
    FakeMatches (.obj vfs) out := by
  have hjp : jsProp (.obj vfs) "type" = .str ty := by simp [jsProp, hty]
  refine ⟨?_, ?_, ?_, ?_⟩ <;> rw [hjp] <;> simp only [strictEqStr, beq_iff_eq] <;> intro hh
  exacts [h1 hh, h2 hh, h3 hh, h4 hh]

theorem forall₂_keys {pfs out : List (String × JsValue)}
    (h : List.Forall₂ (fun pv ov => pv.1 = ov.1 ∧ FakeMatches pv.2 ov.2) pfs out) :
    out.map Prod.fst = pfs.map Prod.fst := by
  induction h with
  | nil => rfl
  | cons hR _ ih => simp [List.map_cons, ih, hR.1]

/-- The fuel-generalized soundness of the generator on good schemas: with
enough fuel an object schema with good properties generates an object
whose fields correspond one-to-one to the declared properties, with
matching runtime types. -/
theorem genGo_good (fuel : Nat) :
    (∀ (fk : Faker) (fs pfs : List (String × JsValue)),
      lookupField fs "properties" = some (.obj pfs) → GoodProps pfs →
      jsSize (.obj fs) ≤ fuel →
      ∃ out, genGo fk fuel (.obj fs) = .ok (.obj out) ∧
        List.Forall₂ (fun pv ov => pv.1 = ov.1 ∧ FakeMatches pv.2 ov.2) pfs out) ∧
    (∀ (fk : Faker) (pfs : List (String × JsValue)),
      GoodProps pfs → (∀ kv ∈ pfs, jsSize kv.2 ≤ fuel) →
      ∃ out, genLoop fk (fun v => genGo fk fuel v) pfs = .ok out ∧
        List.Forall₂ (fun pv ov => pv.1 = ov.1 ∧ FakeMatches pv.2 ov.2) pfs out) := by
  induction fuel with
  | zero =>
    constructor
    · intro fk fs pfs _ _ hsz
      have := jsSize_pos (.obj fs)
      omega
    · intro fk pfs hgood hbound
      cases pfs with
      | nil => exact ⟨[], rfl, List.Forall₂.nil⟩
      | cons kv rest =>
        have h1 := hbound kv (by simp)
        have h2 := jsSize_pos kv.2
        omega
  | succ fuel ih =>
    have V : ∀ (fk : Faker) (fs pfs : List (String × JsValue)),
        lookupField fs "properties" = some (.obj pfs) → GoodProps pfs →
        jsSize (.obj fs) ≤ fuel + 1 →
        ∃ out, genGo fk (fuel + 1) (.obj fs) = .ok (.obj out) ∧
          List.Forall₂ (fun pv ov => pv.1 = ov.1 ∧ FakeMatches pv.2 ov.2) pfs out := by
      intro fk fs pfs hlook hgood hsz
      have hbound : ∀ kv ∈ pfs, jsSize kv.2 ≤ fuel := by
        intro kv hkv
        have h1 := jsSizeF_mem hkv
        have h2 := jsSizeF_lookup hlook
        have h3 : jsSize (JsValue.obj pfs) = 1 + jsSizeF pfs := rfl
        have h4 : jsSize (JsValue.obj fs) = 1 + jsSizeF fs := rfl
        omega
      obtain ⟨out, hout, hall⟩ := ih.2 fk pfs hgood hbound
      refine ⟨out, ?_, hall⟩
      show genGo fk (fuel + 1) (.obj fs) = .ok (.obj out)
      simp [genGo, jsGet, jsProp, hlook, objectEntries, hout]
    refine ⟨V, ?_⟩
    intro fk pfs
    induction pfs with
    | nil => exact fun _ _ => ⟨[], rfl, List.Forall₂.nil⟩
    | cons kv rest ihrest =>
      intro hgood hbound
      obtain ⟨k, v⟩ := kv
      cases hgood with
      | cons _ _ _ hv hrest =>
        obtain ⟨tailOut, htail, htailAll⟩ :=
          ihrest hrest (fun q hq => hbound q (List.mem_cons_of_mem _ hq))
        cases hv with
        | str vfs htype =>
          rw [genLoop_cons, entryGen_str fk _ k vfs htype, htail]
          exact ⟨(k, .str fk.productName) :: tailOut, rfl,
            List.Forall₂.cons ⟨rfl, fakeMatches_of vfs _ "string" htype
              (fun _ => ⟨_, rfl⟩) (by simp) (by simp) (by simp)⟩ htailAll⟩
        | int vfs htype =>
          rw [genLoop_cons, entryGen_int fk _ k vfs htype, htail]
          exact ⟨(k, .num fk.intVal) :: tailOut, rfl,
            List.Forall₂.cons ⟨rfl, fakeMatches_of vfs _ "integer" htype
              (by simp) (fun _ => ⟨_, rfl⟩) (by simp) (by simp)⟩ htailAll⟩
        | arr vfs it htype hit htr hgs =>
          cases hgs with
          | mk ifs ipfs hilook higood =>
            have hsz : jsSize (JsValue.obj ifs) ≤ fuel + 1 := by
              have h1 := jsSizeF_lookup hit
              have h2 := hbound (k, .obj vfs) (by simp)
              have h3 : jsSize (JsValue.obj vfs) = 1 + jsSizeF vfs := rfl
              simp only at h2
              omega
            obtain ⟨iout, hiout, _⟩ := V fk ifs ipfs hilook higood hsz
            rw [genLoop_cons, entryGen_arr fk _ k vfs (.obj ifs) htype hit htr, hiout, htail]
            exact ⟨(k, .arr [.obj iout]) :: tailOut, rfl,
              List.Forall₂.cons ⟨rfl, fakeMatches_of vfs _ "array" htype
                (by simp) (by simp) (fun _ => ⟨_, rfl⟩) (by simp)⟩ htailAll⟩
        | obj vfs htype hgs =>
          cases hgs with
          | mk _ vpfs hvlook hvgood =>
            have hsz : jsSize (JsValue.obj vfs) ≤ fuel + 1 := by
              have h2 := hbound (k, .obj vfs) (by simp)
              simp only at h2
              omega
            obtain ⟨vout, hvout, _⟩ := V fk vfs vpfs hvlook hvgood hsz
            rw [genLoop_cons, entryGen_obj fk _ k vfs htype, hvout, htail]
            exact ⟨(k, .obj vout) :: tailOut, rfl,
              List.Forall₂.cons ⟨rfl, fakeMatches_of vfs _ "object" htype
                (by simp) (by simp) (by simp) (fun _ => ⟨_, rfl⟩)⟩ htailAll⟩

/-- C2 counterexample: a schema whose single property carries the declared
type `array` (one of the four recognized types) but no `items` produces an
empty object: the output key set is empty while the declared property-name
set is `tags`, refuting the claimed key-set equality. -/
theorem generateFakeData_array_no_items_drops_key :
    generateFakeData someFaker
      (.obj [("properties", .obj [("tags", .obj [("type", .str "array")])])]) =
      .ok (.obj []) ∧
    (([] : List (String × JsValue)).map Prod.fst ≠
      schemaPropNames (.obj [("properties", .obj [("tags", .obj [("type", .str "array")])])])) :=
  ⟨rfl, by decide⟩

/-- C2 (amended): for every schema whose properties all carry one of the
four recognized types, where additionally every `array`-typed property
carries a truthy `items` schema and every `object`-typed property node and
every `items` schema is itself such a schema (with a `properties` object
of the same shape, recursively), generation succeeds, the output's key
list equals the schema's declared property-name list, and each produced
value's runtime type matches the declared type: string to string, integer
to number, array to a one-element sequence, object to a nested mapping. -/
theorem generateFakeData_good_schema :
    ∀ (fk : Faker) (fs pfs : List (String × JsValue)),
      lookupField fs "properties" = some (.obj pfs) →
      GoodProps pfs →
      ∃ out, generateFakeData fk (.obj fs) = .ok (.obj out) ∧
        out.map Prod.fst = schemaPropNames (.obj fs) ∧
        List.Forall₂ (fun pv ov => pv.1 = ov.1 ∧ FakeMatches pv.2 ov.2) pfs out := by
  intro fk fs pfs hlook hgood
  obtain ⟨out, hout, hall⟩ :=
    (genGo_good (jsSize (.obj fs))).1 fk fs pfs hlook hgood le_rfl
  refine ⟨out, hout, ?_, hall⟩
  rw [forall₂_keys hall]
  simp [schemaPropNames, jsProp, hlook]

/-- C2 witness: a schema with a string, an integer, an array (of objects)
and a nested object property, generated with all four keys and matching
runtime types. -/
theorem generateFakeData_good_schema_witness :
    ∃ out, generateFakeData someFaker (.obj [("properties", .obj [
        ("name", .obj [("type", .str "string")]),
        ("age", .obj [("type", .str "integer")]),
        ("tags", .obj [("type", .str "array"),
          ("items", .obj [("properties", .obj [("id", .obj [("type", .str "integer")])])])]),
        ("owner", .obj [("type", .str "object"),
          ("properties", .obj [("id", .obj [("type", .str "integer")])])])])]) =
      .ok (.obj out) ∧
      out.map Prod.fst = schemaPropNames (.obj [("properties", .obj [
        ("name", .obj [("type", .str "string")]),
        ("age", .obj [("type", .str "integer")]),
        ("tags", .obj [("type", .str "array"),
          ("items", .obj [("properties", .obj [("id", .obj [("type", .str "integer")])])])]),
        ("owner", .obj [("type", .str "object"),
          ("properties", .obj [("id", .obj [("type", .str "integer")])])])])]) ∧
      List.Forall₂ (fun pv ov => pv.1 = ov.1 ∧ FakeMatches pv.2 ov.2)
        [("name", .obj [("type", .str "string")]),
         ("age", .obj [("type", .str "integer")]),
         ("tags", .obj [("type", .str "array"),
           ("items", .obj [("properties", .obj [("id", .obj [("type", .str "integer")])])])]),
         ("owner", .obj [("type", .str "object"),
           ("properties", .obj [("id", .obj [("type", .str "integer")])])])] out :=
  generateFakeData_good_schema someFaker _ _ rfl
    (GoodProps.cons _ _ _ (GoodProp.str _ rfl)
      (GoodProps.cons _ _ _ (GoodProp.int _ rfl)
        (GoodProps.cons _ _ _ (GoodProp.arr _ _ rfl rfl rfl
            (GoodSchema.mk _ _ rfl (GoodProps.cons _ _ _ (GoodProp.int _ rfl) GoodProps.nil)))
          (GoodProps.cons _ _ _ (GoodProp.obj _ rfl
              (GoodSchema.mk _ _ rfl (GoodProps.cons _ _ _ (GoodProp.int _ rfl) GoodProps.nil)))
            GoodProps.nil))))

theorem skipWs_append_ws (pre : List Char) (hpre : ∀ c ∈ pre, jsonWs c = true)
    (x : List Char) : skipWs (pre ++ x) = skipWs x := by
  induction pre with
  | nil => rfl
  | cons c pre' ih =>
    rw [List.cons_append, skipWs, if_pos (hpre c (by simp))]
    exact ih (fun c hc => hpre c (by simp [hc]))

theorem skipWs_cons_not_ws {c : Char} (hc : jsonWs c = false) (x : List Char) :
    skipWs (c :: x) = c :: x := by
  rw [skipWs, if_neg (by simp [hc])]

theorem openWs_ws (sp d : Nat) : ∀ c ∈ openWs sp d, jsonWs c = true := by
  intro c hc
  unfold openWs at hc
  by_cases hsp : sp = 0
  · simp [hsp] at hc
  · rw [if_neg hsp] at hc
    rcases List.mem_cons.mp hc with h | h
    · simp [h, jsonWs]
    · unfold indentChars at h
      rw [List.eq_of_mem_replicate h]
      simp [jsonWs]

theorem closeWs_ws (sp d : Nat) : ∀ c ∈ closeWs sp d, jsonWs c = true :=
  openWs_ws sp d

theorem parseVal_ws (fuel : Nat) (pre : List Char) (hpre : ∀ c ∈ pre, jsonWs c = true)
    (x : List Char) : parseVal fuel (pre ++ x) = parseVal fuel x := by
  cases fuel with
  | zero => rfl
  | succ f =>
    show parseVal (f + 1) (pre ++ x) = parseVal (f + 1) x
    unfold parseVal
    rw [skipWs_append_ws pre hpre]

theorem parseItems_ws (fuel : Nat) (pre : List Char) (hpre : ∀ c ∈ pre, jsonWs c = true)
    (x : List Char) : parseItems fuel (pre ++ x) = parseItems fuel x := by
  cases fuel with
  | zero => rfl
  | succ f =>
    show parseItems (f + 1) (pre ++ x) = parseItems (f + 1) x
    unfold parseItems
    rw [skipWs_append_ws pre hpre]

theorem parseMembers_ws (fuel : Nat) (pre : List Char)
    (hpre : ∀ c ∈ pre, jsonWs c = true) (x : List Char) :
    parseMembers fuel (pre ++ x) = parseMembers fuel x := by
  cases fuel with
  | zero => rfl
  | succ f =>
    show parseMembers (f + 1) (pre ++ x) = parseMembers (f + 1) x
    unfold parseMembers
    rw [skipWs_append_ws pre hpre]

theorem digitVal_digitChar {d : Nat} (hd : d < 10) : digitVal (digitChar d) = some d := by
  interval_cases d <;> rfl

theorem hexVal_hexDigitChar {h : Nat} (hh : h < 16) : hexVal (hexDigitChar h) = some h := by
  interval_cases h <;> rfl

theorem natDigitsGo_head {fuel n : Nat} (h : n < fuel) :
    ∃ d ds, natDigitsGo fuel n = digitChar d :: ds ∧ d < 10 ∧ (1 ≤ n → 1 ≤ d) := by
  induction fuel generalizing n with
  | zero => omega
  | succ f ih =>
    by_cases hn : n < 10
    · exact ⟨n, [], by rw [natDigitsGo, if_pos hn], hn, fun h1 => h1⟩
    · have hdiv : n / 10 < f := by omega
      obtain ⟨d, ds, hds, hd10, hd1⟩ := ih hdiv
      refine ⟨d, ds ++ [digitChar (n % 10)], ?_, hd10, fun _ => hd1 (by omega)⟩
      rw [natDigitsGo, if_neg hn, hds]
      rfl

theorem parseDigitsGo_append {fuel n : Nat} (h : n < fuel) (acc : Nat) (rest : List Char) :
    parseDigitsGo acc (natDigitsGo fuel n ++ rest) =
      parseDigitsGo (acc * 10 ^ (natDigitsGo fuel n).length + n) rest := by
  induction fuel generalizing n acc rest with
  | zero => omega
  | succ f ih =>
    by_cases hn : n < 10
    · rw [natDigitsGo, if_pos hn]
      simp only [List.cons_append, List.nil_append, List.length_cons, List.length_nil]
      rw [parseDigitsGo, digitVal_digitChar hn]
      norm_num
    · have hdiv : n / 10 < f := by omega
      rw [natDigitsGo, if_neg hn]
      rw [List.append_assoc, List.cons_append, List.nil_append]
      rw [ih hdiv acc (digitChar (n % 10) :: rest)]
      rw [parseDigitsGo, digitVal_digitChar (by omega : n % 10 < 10)]
      have harith : (acc * 10 ^ (natDigitsGo f (n / 10)).length + n / 10) * 10 + n % 10 =
          acc * 10 ^ (natDigitsGo f (n / 10) ++ [digitChar (n % 10)]).length + n := by
        rw [List.length_append, List.length_cons, List.length_nil, pow_succ]
        have e1 : (acc * 10 ^ (natDigitsGo f (n / 10)).length + n / 10) * 10 + n % 10 =
            acc * (10 ^ (natDigitsGo f (n / 10)).length * 10) + (n / 10 * 10 + n % 10) := by
          ring
        have e2 : n / 10 * 10 + n % 10 = n := by omega
        rw [e1, e2]
      dsimp only
      rw [harith]

theorem parseDigitsGo_boundary (acc : Nat) (rest : List Char)
    (h : numBoundary rest = true) : parseDigitsGo acc rest = (acc, rest) := by
  cases rest with
  | nil => rfl
  | cons c rs =>
    simp only [numBoundary, Bool.and_eq_true, Option.isNone_iff_eq_none] at h
    rw [parseDigitsGo, h.1.1.1]

theorem numTailOk_boundary (n : Nat) (rest : List Char) (h : numBoundary rest = true) :
    numTailOk n rest = some (n, rest) := by
  cases rest with
  | nil => rfl
  | cons c rs =>
    simp only [numBoundary, Bool.and_eq_true, Bool.not_eq_eq_eq_not, Bool.not_true,
      decide_eq_false_iff_not] at h
    rw [numTailOk, if_neg (by simp [h.1.2, h.2, h.1.1.2])]

theorem parseNumTail_natChars (n : Nat) (rest : List Char) (h : numBoundary rest = true) :
    parseNumTail (natChars n ++ rest) = some (n, rest) := by
  by_cases hn : n = 0
  · subst hn
    cases rest with
    | nil => rfl
    | cons c rs =>
      have hb := h
      simp only [numBoundary, Bool.and_eq_true, Option.isNone_iff_eq_none] at hb
      have hdig : isDigitCh c = false := by simp [isDigitCh, hb.1.1.1]
      show parseNumTail ('0' :: c :: rs) = some (0, c :: rs)
      rw [show parseNumTail ('0' :: c :: rs) =
        (if isDigitCh c then none else numTailOk 0 (c :: rs)) from rfl]
      rw [hdig]
      simp only [Bool.false_eq_true, if_false]
      rw [numTailOk_boundary 0 (c :: rs) h]
  · obtain ⟨d, ds, hds, hd10, hd1⟩ := natDigitsGo_head (show n < n + 1 by omega)
    have hd1' := hd1 (by omega)
    have hfull := parseDigitsGo_append (show n < n + 1 by omega) 0 rest
    unfold natChars
    rw [hds] at hfull ⊢
    rw [List.cons_append] at hfull ⊢
    simp only [parseDigitsGo, digitVal_digitChar hd10] at hfull
    simp only [parseNumTail, digitVal_digitChar hd10]
    have hne0 : ¬ digitChar d = '0' := by
      intro hc
      have hdc : digitVal (digitChar d) = some d := digitVal_digitChar hd10
      rw [hc] at hdc
      simp [digitVal] at hdc
      omega
    rw [if_neg hne0]
    simp only [Nat.zero_mul, Nat.zero_add] at hfull
    rw [hfull, parseDigitsGo_boundary _ _ h]
    rw [numTailOk_boundary _ _ h]

theorem strMk_data (s : String) : String.mk s.data = s := by
  cases s
  rfl

theorem parseStrGo_quote (rest acc : List Char) :
    parseStrGo ('"' :: rest) .plain acc = some (String.mk acc.reverse, rest) := rfl

theorem parseStrGo_backslash (rest acc : List Char) :
    parseStrGo ('\\' :: rest) .plain acc = parseStrGo rest .esc acc := rfl

theorem parseStrGo_esc_quote (rest acc : List Char) :
    parseStrGo ('"' :: rest) .esc acc = parseStrGo rest .plain ('"' :: acc) := rfl

theorem parseStrGo_esc_backslash (rest acc : List Char) :
    parseStrGo ('\\' :: rest) .esc acc = parseStrGo rest .plain ('\\' :: acc) := rfl

theorem parseStrGo_esc_b (rest acc : List Char) :
    parseStrGo ('b' :: rest) .esc acc = parseStrGo rest .plain ('\x08' :: acc) := rfl

theorem parseStrGo_esc_f (rest acc : List Char) :
    parseStrGo ('f' :: rest) .esc acc = parseStrGo rest .plain ('\x0c' :: acc) := rfl

theorem parseStrGo_esc_n (rest acc : List Char) :
    parseStrGo ('n' :: rest) .esc acc = parseStrGo rest .plain ('\n' :: acc) := rfl

theorem parseStrGo_esc_r (rest acc : List Char) :
    parseStrGo ('r' :: rest) .esc acc = parseStrGo rest .plain ('\x0d' :: acc) := rfl

theorem parseStrGo_esc_t (rest acc : List Char) :
    parseStrGo ('t' :: rest) .esc acc = parseStrGo rest .plain ('\t' :: acc) := rfl

theorem parseStrGo_esc_u (rest acc : List Char) :
    parseStrGo ('u' :: rest) .esc acc = parseStrGo rest (.hex 0 4) acc := rfl

theorem parseStrGo_hex_step (c : Char) (d : Nat) (hc : hexVal c = some d)
    (rest acc : List Char) (a k : Nat) :
    parseStrGo (c :: rest) (.hex a (k + 2)) acc =
      parseStrGo rest (.hex (a * 16 + d) (k + 1)) acc := by
  show (match hexVal c with
    | none => none
    | some d =>
      match k + 2 with
      | 0 => none
      | 1 =>
        if a * 16 + d < 55296 ∨ (57344 ≤ a * 16 + d ∧ a * 16 + d < 1114112) then
          parseStrGo rest .plain (Char.ofNat (a * 16 + d) :: acc)
        else none
      | k' + 2 => parseStrGo rest (.hex (a * 16 + d) (k' + 1)) acc) = _
  rw [hc]

theorem parseStrGo_hex_last (c : Char) (d : Nat) (hc : hexVal c = some d)
    (rest acc : List Char) (a : Nat) (hv : a * 16 + d < 55296) :
    parseStrGo (c :: rest) (.hex a 1) acc =
      parseStrGo rest .plain (Char.ofNat (a * 16 + d) :: acc) := by
  show (match hexVal c with
    | none => none
    | some d =>
      match 1 with
      | 0 => none
      | 1 =>
        if a * 16 + d < 55296 ∨ (57344 ≤ a * 16 + d ∧ a * 16 + d < 1114112) then
          parseStrGo rest .plain (Char.ofNat (a * 16 + d) :: acc)
        else none
      | k' + 2 => parseStrGo rest (.hex (a * 16 + d) (k' + 1)) acc) = _
  rw [hc]
  dsimp only
  rw [if_pos (Or.inl hv)]

theorem parseStrGo_other (c : Char) (rest acc : List Char)
    (h1 : ¬ c = '"') (h2 : ¬ c = '\\') (h3 : ¬ c.toNat < 32) :
    parseStrGo (c :: rest) .plain acc = parseStrGo rest .plain (c :: acc) := by
  show (if c = '"' then some (String.mk acc.reverse, rest)
    else if c = '\\' then parseStrGo rest .esc acc
    else if c.toNat < 32 then none
    else parseStrGo rest .plain (c :: acc)) = _
  rw [if_neg h1, if_neg h2, if_neg h3]

theorem parseStrGo_escape (cs : List Char) :
    ∀ (acc rest : List Char),
      parseStrGo (escapeChars cs ++ '"' :: rest) .plain acc =
        some (String.mk (acc.reverse ++ cs), rest) := by
  induction cs with
  | nil =>
    intro acc rest
    rw [show escapeChars [] ++ '"' :: rest = '"' :: rest from rfl, parseStrGo_quote]
    simp
  | cons c cs' ih =>
    intro acc rest
    rw [show escapeChars (c :: cs') = escChar c ++ escapeChars cs' from rfl,
      List.append_assoc]
    unfold escChar
    by_cases hq : c = '"'
    · subst hq
      rw [if_pos rfl]
      simp only [List.cons_append, List.nil_append]
      rw [parseStrGo_backslash, parseStrGo_esc_quote, ih]
      simp
    · rw [if_neg hq]
      by_cases hb : c = '\\'
      · subst hb
        rw [if_pos rfl]
        simp only [List.cons_append, List.nil_append]
        rw [parseStrGo_backslash, parseStrGo_esc_backslash, ih]
        simp
      · rw [if_neg hb]
        by_cases h3 : c = '\x08'
        · subst h3
          rw [if_pos rfl]
          simp only [List.cons_append, List.nil_append]
          rw [parseStrGo_backslash, parseStrGo_esc_b, ih]
          simp
        · rw [if_neg h3]
          by_cases h4 : c = '\x0c'
          · subst h4
            rw [if_pos rfl]
            simp only [List.cons_append, List.nil_append]
            rw [parseStrGo_backslash, parseStrGo_esc_f, ih]
            simp
          · rw [if_neg h4]
            by_cases h5 : c = '\n'
            · subst h5
              rw [if_pos rfl]
              simp only [List.cons_append, List.nil_append]
              rw [parseStrGo_backslash, parseStrGo_esc_n, ih]
              simp
            · rw [if_neg h5]
              by_cases h6 : c = '\x0d'
              · subst h6
                rw [if_pos rfl]
                simp only [List.cons_append, List.nil_append]
                rw [parseStrGo_backslash, parseStrGo_esc_r, ih]
                simp
              · rw [if_neg h6]
                by_cases h7 : c = '\t'
                · subst h7
                  rw [if_pos rfl]
                  simp only [List.cons_append, List.nil_append]
                  rw [parseStrGo_backslash, parseStrGo_esc_t, ih]
                  simp
                · rw [if_neg h7]
                  by_cases h8 : c.toNat < 32
                  · rw [if_pos h8]
                    simp only [List.cons_append, List.nil_append]
                    rw [parseStrGo_backslash, parseStrGo_esc_u,
                      parseStrGo_hex_step '0' 0 rfl,
                      parseStrGo_hex_step '0' 0 rfl,
                      parseStrGo_hex_step (hexDigitChar (c.toNat / 16)) (c.toNat / 16)
                        (hexVal_hexDigitChar (by omega))]
                    norm_num
                    rw [parseStrGo_hex_last (hexDigitChar (c.toNat % 16)) (c.toNat % 16)
                        (hexVal_hexDigitChar (by omega)) _ _ (c.toNat / 16) (by omega)]
                    rw [show c.toNat / 16 * 16 + c.toNat % 16 = c.toNat from by omega]
                    rw [Char.ofNat_toNat, ih]
                    simp
                  · rw [if_neg h8]
                    simp only [List.cons_append, List.nil_append]
                    rw [parseStrGo_other c _ _ hq hb h8, ih]
                    simp

theorem quoteChars_eq (s : String) :
    quoteChars s = '"' :: (escapeChars s.data ++ ['"']) := rfl

theorem digitChar_not_ws {d : Nat} (hd : d < 10) :
    jsonWs (digitChar d) = false ∧ digitChar d ≠ ']' ∧ digitChar d ≠ '\x7d' := by
  interval_cases d <;> exact ⟨rfl, by decide, by decide⟩

theorem serVal_obj (sp d : Nat) (fs : List (String × JsValue)) :
    serVal sp d (.obj fs) =
      (if (serMembers sp (d+1) true fs).isEmpty then ['\x7b', '\x7d']
       else '\x7b' :: (serMembers sp (d+1) true fs ++ closeWs sp d ++ ['\x7d'])) := rfl

/-- The first character of any serialized value: never whitespace, never a
closing bracket. -/
theorem serVal_head (sp d : Nat) (v : JsValue) :
    ∃ c cs', serVal sp d v = c :: cs' ∧ jsonWs c = false ∧ c ≠ ']' ∧ c ≠ '\x7d' := by
  cases v with
  | undef => exact ⟨'n', _, rfl, rfl, by decide, by decide⟩
  | null => exact ⟨'n', _, rfl, rfl, by decide, by decide⟩
  | bool b =>
    cases b with
    | false => exact ⟨'f', _, rfl, rfl, by decide, by decide⟩
    | true => exact ⟨'t', _, rfl, rfl, by decide, by decide⟩
  | num n =>
    show ∃ c cs', intChars n = c :: cs' ∧ _ ∧ _ ∧ _
    unfold intChars
    by_cases hn : n < 0
    · exact ⟨'-', _, by rw [if_pos hn], rfl, by decide, by decide⟩
    · rw [if_neg hn]
      obtain ⟨d0, ds, hds, hd10, _⟩ := natDigitsGo_head (show n.toNat < n.toNat + 1 by omega)
      obtain ⟨hws, hbr, hbr2⟩ := digitChar_not_ws hd10
      exact ⟨digitChar d0, ds, hds, hws, hbr, hbr2⟩
  | str s => exact ⟨'"', _, rfl, rfl, by decide, by decide⟩
  | arr es =>
    cases es with
    | nil => exact ⟨'[', _, rfl, rfl, by decide, by decide⟩
    | cons e rest => exact ⟨'[', _, rfl, rfl, by decide, by decide⟩
  | obj fs =>
    rw [serVal_obj]
    by_cases h : (serMembers sp (d+1) true fs).isEmpty
    · rw [if_pos h]
      exact ⟨'\x7b', ['\x7d'], rfl, rfl, by decide, by decide⟩
    · rw [if_neg h]
      exact ⟨'\x7b', serMembers sp (d+1) true fs ++ closeWs sp d ++ ['\x7d'],
        rfl, rfl, by decide, by decide⟩

theorem serMembers_cons_undef (sp d : Nat) (first : Bool) (k : String)
    (fs : List (String × JsValue)) :
    serMembers sp d first ((k, .undef) :: fs) = serMembers sp d first fs := rfl

theorem serMembers_cons_ne (sp d : Nat) (first : Bool) (k : String) (v : JsValue)
    (fs : List (String × JsValue)) (hv : v ≠ .undef) :
    serMembers sp d first ((k, v) :: fs) =
      (if first then openWs sp d else ',' :: openWs sp d) ++ quoteChars k
        ++ colonChars sp ++ serVal sp d v ++ serMembers sp d false fs := by
  cases v with
  | undef => exact absurd rfl hv
  | null => rfl
  | bool b => rfl
  | num n => rfl
  | str s => rfl
  | arr es => rfl
  | obj gs => rfl

theorem stripUndefF_cons_undef (k : String) (fs : List (String × JsValue)) :
    stripUndefF ((k, .undef) :: fs) = stripUndefF fs := rfl

theorem stripUndefF_cons_ne (k : String) (v : JsValue) (fs : List (String × JsValue))
    (hv : v ≠ .undef) :
    stripUndefF ((k, v) :: fs) = (k, stripUndef v) :: stripUndefF fs := by
  cases v with
  | undef => exact absurd rfl hv
  | null => rfl
  | bool b => rfl
  | num n => rfl
  | str s => rfl
  | arr es => rfl
  | obj gs => rfl

theorem closeWs_rb_boundary (sp dc : Nat) (x : List Char) (c : Char)
    (hc : (digitVal c).isNone && !(c = '.') && !(c = 'e') && !(c = 'E') = true) :
    numBoundary (closeWs sp dc ++ c :: x) = true := by
  unfold closeWs
  by_cases hsp : sp = 0
  · rw [if_pos hsp]
    simpa [numBoundary] using hc
  · rw [if_neg hsp]
    rfl

theorem afterItems_boundary (sp d' dc : Nat) (l : List JsValue) (rest : List Char) :
    numBoundary (serItems sp d' l ++ closeWs sp dc ++ ']' :: rest) = true := by
  cases l with
  | nil =>
    rw [show serItems sp d' [] = [] from rfl, List.nil_append]
    exact closeWs_rb_boundary sp dc rest ']' (by decide)
  | cons e l' =>
    rw [show serItems sp d' (e :: l') =
      ',' :: (openWs sp d' ++ serVal sp d' e ++ serItems sp d' l') from rfl]
    rfl

theorem afterMembers_boundary (sp d' dc : Nat) (fs : List (String × JsValue))
    (rest : List Char) :
    numBoundary (serMembers sp d' false fs ++ closeWs sp dc ++ '\x7d' :: rest) = true := by
  induction fs with
  | nil =>
    rw [show serMembers sp d' false [] = [] from rfl, List.nil_append]
    exact closeWs_rb_boundary sp dc rest '\x7d' (by decide)
  | cons kv fs' ih =>
    obtain ⟨k, v⟩ := kv
    by_cases hv : v = JsValue.undef
    · subst hv
      rw [serMembers_cons_undef]
      exact ih
    · rw [serMembers_cons_ne sp d' false k v fs' hv]
      rw [show (if false = true then openWs sp d' else ',' :: openWs sp d') =
        ',' :: openWs sp d' from rfl]
      rfl

theorem serVal_length_pos (sp d : Nat) (v : JsValue) : 1 ≤ (serVal sp d v).length := by
  obtain ⟨c, cs', h, _⟩ := serVal_head sp d v
  rw [h]
  simp

theorem colonChars_eq (sp : Nat) :
    colonChars sp = ':' :: (if sp = 0 then [] else [' ']) := by
  unfold colonChars
  by_cases hsp : sp = 0
  · rw [if_pos hsp, if_pos hsp]
  · rw [if_neg hsp, if_neg hsp]

theorem parseVal_null_tok (f : Nat) (x : List Char) :
    parseVal (f+1) ('n' :: 'u' :: 'l' :: 'l' :: x) = some (.null, x) := rfl

theorem parseVal_true_tok (f : Nat) (x : List Char) :
    parseVal (f+1) ('t' :: 'r' :: 'u' :: 'e' :: x) = some (.bool true, x) := rfl

theorem parseVal_false_tok (f : Nat) (x : List Char) :
    parseVal (f+1) ('f' :: 'a' :: 'l' :: 's' :: 'e' :: x) = some (.bool false, x) := rfl

theorem parseVal_quote (f : Nat) (x : List Char) :
    parseVal (f+1) ('"' :: x) =
      (match parseStrGo x .plain [] with
       | some (s, r) => some (.str s, r)
       | none => none) := rfl

theorem parseVal_lbracket (f : Nat) (x : List Char) :
    parseVal (f+1) ('[' :: x) = parseArr f (skipWs x) := rfl

theorem parseVal_lbrace (f : Nat) (x : List Char) :
    parseVal (f+1) ('\x7b' :: x) = parseObj f (skipWs x) := rfl

theorem parseVal_minus (f : Nat) (x : List Char) :
    parseVal (f+1) ('-' :: x) =
      (match parseNumTail x with
       | some (n, r) => some (.num (-(n : Int)), r)
       | none => none) := rfl

theorem parseVal_digit (f : Nat) (d : Nat) (hd : d < 10) (x : List Char) :
    parseVal (f+1) (digitChar d :: x) =
      (match parseNumTail (digitChar d :: x) with
       | some (n, r) => some (.num (n : Int), r)
       | none => none) := by
  interval_cases d <;> rfl

theorem parseArr_rbracket (f : Nat) (x : List Char) :
    parseArr (f+1) (']' :: x) = some (.arr [], x) := rfl

theorem parseArr_cons (f : Nat) (c : Char) (x : List Char) (hc : ¬ c = ']') :
    parseArr (f+1) (c :: x) =
      (match parseVal f (c :: x) with
       | none => none
       | some (v, r2) =>
         match parseItems f r2 with
         | some (vs, r3) => some (.arr (v :: vs), r3)
         | none => none) := by
  unfold parseArr
  split
  · rename_i r2 heq
    injection heq with h1 h2
    exact absurd h1 hc
  · rfl

theorem parseObj_rbrace (f : Nat) (x : List Char) :
    parseObj (f+1) ('\x7d' :: x) = some (.obj [], x) := rfl

theorem parseObj_cons (f : Nat) (c : Char) (x : List Char) (hc : ¬ c = '\x7d') :
    parseObj (f+1) (c :: x) =
      (match parseMember f (c :: x) with
       | none => none
       | some (kv, r4) =>
         match parseMembers f r4 with
         | some (fs, r5) => some (.obj (kv :: fs), r5)
         | none => none) := by
  unfold parseObj
  split
  · rename_i r2 heq
    injection heq with h1 h2
    exact absurd h1 hc
  · rfl

theorem parseMember_quote (f : Nat) (x : List Char) :
    parseMember (f+1) ('"' :: x) =
      (match parseStrGo x .plain [] with
       | none => none
       | some (k, r2) =>
         match parseColon f (skipWs r2) with
         | none => none
         | some (v, r4) => some ((k, v), r4)) := rfl

theorem parseColon_colon (f : Nat) (x : List Char) :
    parseColon (f+1) (':' :: x) = parseVal f x := rfl

theorem parseItems_rbracket (f : Nat) (x : List Char) :
    parseItems (f+1) (']' :: x) = some ([], x) := rfl

theorem parseItems_comma (f : Nat) (x : List Char) :
    parseItems (f+1) (',' :: x) =
      (match parseVal f x with
       | none => none
       | some (v, r2) =>
         match parseItems f r2 with
         | some (vs, r3) => some (v :: vs, r3)
         | none => none) := rfl

theorem parseMembers_rbrace (f : Nat) (x : List Char) :
    parseMembers (f+1) ('\x7d' :: x) = some ([], x) := rfl

theorem parseMembers_comma (f : Nat) (x : List Char) :
    parseMembers (f+1) (',' :: x) =
      (match parseMember f (skipWs x) with
       | none => none
       | some (kv, r4) =>
         match parseMembers f r4 with
         | some (fs, r5) => some (kv :: fs, r5)
         | none => none) := rfl

/-- The elements after the first of a serialized array parse back to the
stripped elements, consuming the closing bracket. -/
theorem parseItems_serItems (sp : Nat) :
    ∀ (l : List JsValue),
      (∀ x ∈ l, ∀ (d₂ fuel₂ : Nat) (rest₂ : List Char),
        numBoundary rest₂ = true →
        2 * (serVal sp d₂ x).length + rest₂.length < fuel₂ →
        parseVal fuel₂ (serVal sp d₂ x ++ rest₂) = some (stripUndef x, rest₂)) →
      ∀ (d' dc fuel : Nat) (rest : List Char),
      2 * (serItems sp d' l).length + (closeWs sp dc ++ ']' :: rest).length < fuel →
      parseItems fuel (serItems sp d' l ++ closeWs sp dc ++ ']' :: rest) =
        some (stripUndefL l, rest) := by
  intro l
  induction l with
  | nil =>
    intro _ d' dc fuel rest hlen
    obtain ⟨f, rfl⟩ : ∃ f, fuel = f + 1 := ⟨fuel - 1, by omega⟩
    rw [show serItems sp d' [] = [] from rfl, List.nil_append]
    unfold parseItems
    rw [skipWs_append_ws (closeWs sp dc) (closeWs_ws sp dc),
      skipWs_cons_not_ws (by decide) rest]
    rfl
  | cons e l' ih =>
    intro hval d' dc fuel rest hlen
    obtain ⟨f, rfl⟩ : ∃ f, fuel = f + 1 := ⟨fuel - 1, by omega⟩
    rw [show serItems sp d' (e :: l') =
      ',' :: (openWs sp d' ++ serVal sp d' e ++ serItems sp d' l') from rfl] at hlen ⊢
    rw [show (',' :: (openWs sp d' ++ serVal sp d' e ++ serItems sp d' l'))
        ++ closeWs sp dc ++ ']' :: rest =
      ',' :: (openWs sp d' ++ (serVal sp d' e
        ++ (serItems sp d' l' ++ closeWs sp dc ++ ']' :: rest))) from by
      simp [List.append_assoc]]
    rw [parseItems_comma]
    rw [parseVal_ws f (openWs sp d') (openWs_ws sp d')]
    have hlens : 2 * (serVal sp d' e).length +
        (serItems sp d' l' ++ closeWs sp dc ++ ']' :: rest).length < f := by
      have := hlen
      simp only [List.cons_append, List.length_cons, List.length_append] at this ⊢
      omega
    rw [hval e (by simp) d' f (serItems sp d' l' ++ closeWs sp dc ++ ']' :: rest)
      (afterItems_boundary sp d' dc l' rest) hlens]
    dsimp only
    rw [ih (fun x hx => hval x (by simp [hx])) d' dc f rest (by
      simp only [List.cons_append, List.length_cons, List.length_append] at hlen ⊢
      omega)]
    rfl

/-- The members after the first of a serialized object parse back to the
stripped fields, consuming the closing brace. -/
theorem parseMembers_serMembers (sp : Nat) :
    ∀ (fs : List (String × JsValue)),
      (∀ kv ∈ fs, ∀ (d₂ fuel₂ : Nat) (rest₂ : List Char),
        numBoundary rest₂ = true →
        2 * (serVal sp d₂ (Prod.snd kv)).length + rest₂.length < fuel₂ →
        parseVal fuel₂ (serVal sp d₂ (Prod.snd kv) ++ rest₂) =
          some (stripUndef (Prod.snd kv), rest₂)) →
      ∀ (d' dc fuel : Nat) (rest : List Char),
      2 * (serMembers sp d' false fs).length
        + (closeWs sp dc ++ '\x7d' :: rest).length < fuel →
      parseMembers fuel (serMembers sp d' false fs ++ closeWs sp dc ++ '\x7d' :: rest) =
        some (stripUndefF fs, rest) := by
  intro fs
  induction fs with
  | nil =>
    intro _ d' dc fuel rest hlen
    obtain ⟨f, rfl⟩ : ∃ f, fuel = f + 1 := ⟨fuel - 1, by omega⟩
    rw [show serMembers sp d' false [] = [] from rfl, List.nil_append]
    unfold parseMembers
    rw [skipWs_append_ws (closeWs sp dc) (closeWs_ws sp dc),
      skipWs_cons_not_ws (by decide) rest]
    rfl
  | cons kv fs' ih =>
    intro hval d' dc fuel rest hlen
    obtain ⟨k, v⟩ := kv
    by_cases hv : v = JsValue.undef
    · subst hv
      rw [serMembers_cons_undef, stripUndefF_cons_undef]
      exact ih (fun x hx => hval x (by simp [hx])) d' dc fuel rest
        (by rw [serMembers_cons_undef] at hlen; exact hlen)
    · have hlen' := hlen
      rw [serMembers_cons_ne sp d' false k v fs' hv] at hlen'
      rw [show (if false = true then openWs sp d' else ',' :: openWs sp d') =
        ',' :: openWs sp d' from rfl] at hlen'
      simp only [quoteChars_eq, colonChars_eq, List.cons_append, List.length_cons,
        List.length_append] at hlen'
      have hsv := serVal_length_pos sp d' v
      obtain ⟨f, rfl⟩ : ∃ f, fuel = f + 3 := ⟨fuel - 3, by omega⟩
      rw [serMembers_cons_ne sp d' false k v fs' hv]
      rw [show (if false = true then openWs sp d' else ',' :: openWs sp d') =
        ',' :: openWs sp d' from rfl]
      rw [show ((',' :: openWs sp d') ++ quoteChars k ++ colonChars sp ++ serVal sp d' v
          ++ serMembers sp d' false fs') ++ closeWs sp dc ++ '\x7d' :: rest =
        ',' :: (openWs sp d' ++ (quoteChars k ++ (colonChars sp ++ (serVal sp d' v
          ++ (serMembers sp d' false fs' ++ closeWs sp dc ++ '\x7d' :: rest))))) from by
        simp [List.append_assoc]]
      rw [show f + 3 = (f + 2) + 1 from rfl]
      rw [parseMembers_comma]
      rw [skipWs_append_ws (openWs sp d') (openWs_ws sp d')]
      rw [quoteChars_eq, List.cons_append, skipWs_cons_not_ws (by decide)]
      rw [show f + 2 = (f + 1) + 1 from rfl]
      rw [parseMember_quote]
      rw [show (escapeChars k.data ++ ['"']) ++ (colonChars sp ++ (serVal sp d' v
          ++ (serMembers sp d' false fs' ++ closeWs sp dc ++ '\x7d' :: rest))) =
        escapeChars k.data ++ '"' :: (colonChars sp ++ (serVal sp d' v
          ++ (serMembers sp d' false fs' ++ closeWs sp dc ++ '\x7d' :: rest))) from by
        simp]
      rw [parseStrGo_escape k.data []]
      dsimp only
      rw [show String.mk (List.reverse [] ++ k.data) = k from by simp [strMk_data]]
      rw [colonChars_eq, List.cons_append, skipWs_cons_not_ws (by decide)]
      rw [parseColon_colon]
      rw [parseVal_ws f (if sp = 0 then [] else [' '])
        (by intro c hc; by_cases hsp : sp = 0 <;> simp [hsp] at hc <;> simp [hc, jsonWs])]
      have hlenv : 2 * (serVal sp d' v).length +
          (serMembers sp d' false fs' ++ closeWs sp dc ++ '\x7d' :: rest).length < f := by
        simp only [List.cons_append, List.length_cons, List.length_append] at hlen' ⊢
        omega
      have hv2 : ∀ (d₂ fuel₂ : Nat) (rest₂ : List Char), numBoundary rest₂ = true →
          2 * (serVal sp d₂ v).length + rest₂.length < fuel₂ →
          parseVal fuel₂ (serVal sp d₂ v ++ rest₂) = some (stripUndef v, rest₂) :=
        hval (k, v) (by simp)
      rw [hv2 d' f (serMembers sp d' false fs' ++ closeWs sp dc ++ '\x7d' :: rest)
        (afterMembers_boundary sp d' dc fs' rest) hlenv]
      dsimp only
      rw [ih (fun x hx => hval x (by simp [hx])) d' dc (f + 1 + 1) rest (by
        simp only [List.cons_append, List.length_cons, List.length_append] at hlen' ⊢
        omega)]
      rw [stripUndefF_cons_ne k v fs' hv]

theorem stripUndefF_of_serMembers_nil (sp d : Nat) :
    ∀ fs : List (String × JsValue), serMembers sp d true fs = [] → stripUndefF fs = [] := by
  intro fs
  induction fs with
  | nil => intro _; rfl
  | cons kv fs' ih =>
    intro h
    obtain ⟨k, v⟩ := kv
    by_cases hv : v = JsValue.undef
    · subst hv
      rw [stripUndefF_cons_undef]
      exact ih (by rw [serMembers_cons_undef] at h; exact h)
    · rw [serMembers_cons_ne sp d true k v fs' hv, quoteChars_eq] at h
      have := congrArg List.length h
      simp at this

/-- Round-trip of the serializer and the parser: a serialized value parses
back (with any trailing non-numeric suffix left over) to its
undefined-stripped form. -/
theorem parseVal_serVal (sp : Nat) :
    ∀ (v : JsValue), ∀ (d fuel : Nat) (rest : List Char),
      numBoundary rest = true →
      2 * (serVal sp d v).length + rest.length < fuel →
      parseVal fuel (serVal sp d v ++ rest) = some (stripUndef v, rest) := by
  intro v
  induction v using jsRecOn with
  | hundef =>
    intro d fuel rest hnb hlen
    obtain ⟨f, rfl⟩ : ∃ f, fuel = f + 1 := ⟨fuel - 1, by omega⟩
    exact parseVal_null_tok f rest
  | hnull =>
    intro d fuel rest hnb hlen
    obtain ⟨f, rfl⟩ : ∃ f, fuel = f + 1 := ⟨fuel - 1, by omega⟩
    exact parseVal_null_tok f rest
  | hbool b =>
    intro d fuel rest hnb hlen
    obtain ⟨f, rfl⟩ : ∃ f, fuel = f + 1 := ⟨fuel - 1, by omega⟩
    cases b with
    | true => exact parseVal_true_tok f rest
    | false => exact parseVal_false_tok f rest
  | hnum n =>
    intro d fuel rest hnb hlen
    obtain ⟨f, rfl⟩ : ∃ f, fuel = f + 1 := ⟨fuel - 1, by omega⟩
    show parseVal (f + 1) (intChars n ++ rest) = some (.num n, rest)
    unfold intChars
    by_cases hn : n < 0
    · rw [if_pos hn, List.cons_append, parseVal_minus,
        parseNumTail_natChars n.natAbs rest hnb]
      dsimp only
      rw [show (-(n.natAbs : Int)) = n from by omega]
    · rw [if_neg hn]
      obtain ⟨d0, ds, hds, hd10, _⟩ :=
        natDigitsGo_head (show n.toNat < n.toNat + 1 by omega)
      rw [show natChars n.toNat = digitChar d0 :: ds from hds, List.cons_append,
        parseVal_digit f d0 hd10]
      rw [show digitChar d0 :: (ds ++ rest) = natChars n.toNat ++ rest from by
        rw [show natChars n.toNat = digitChar d0 :: ds from hds, List.cons_append]]
      rw [parseNumTail_natChars n.toNat rest hnb]
      dsimp only
      rw [show ((n.toNat : Int)) = n from Int.toNat_of_nonneg (by omega)]
  | hstr s =>
    intro d fuel rest hnb hlen
    obtain ⟨f, rfl⟩ : ∃ f, fuel = f + 1 := ⟨fuel - 1, by omega⟩
    show parseVal (f + 1) (quoteChars s ++ rest) = some (.str s, rest)
    rw [quoteChars_eq, List.cons_append, parseVal_quote]
    rw [show (escapeChars s.data ++ ['"']) ++ rest =
      escapeChars s.data ++ '"' :: rest from by simp]
    rw [parseStrGo_escape s.data []]
    dsimp only
    rw [show String.mk (List.reverse [] ++ s.data) = s from by simp [strMk_data]]
  | harr es ih =>
    cases es with
    | nil =>
      intro d fuel rest hnb hlen
      have h2 : (serVal sp d (JsValue.arr [])).length = 2 := rfl
      obtain ⟨f, rfl⟩ : ∃ f, fuel = f + 2 := ⟨fuel - 2, by omega⟩
      show parseVal ((f + 1) + 1) ('[' :: ']' :: rest) = some (.arr [], rest)
      rw [parseVal_lbracket, skipWs_cons_not_ws (by decide), parseArr_rbracket]
    | cons e l' =>
      intro d fuel rest hnb hlen
      have hexp : serVal sp d (.arr (e :: l')) =
        '[' :: (openWs sp (d+1) ++ serVal sp (d+1) e ++ serItems sp (d+1) l'
          ++ closeWs sp d ++ [']']) := rfl
      have hlen' := hlen
      rw [hexp] at hlen'
      simp only [List.cons_append, List.length_cons, List.length_append,
        List.length_singleton] at hlen'
      have hse := serVal_length_pos sp (d+1) e
      obtain ⟨f, rfl⟩ : ∃ f, fuel = f + 3 := ⟨fuel - 3, by omega⟩
      rw [hexp]
      rw [show ('[' :: (openWs sp (d+1) ++ serVal sp (d+1) e ++ serItems sp (d+1) l'
          ++ closeWs sp d ++ [']'])) ++ rest =
        '[' :: (openWs sp (d+1) ++ (serVal sp (d+1) e ++ (serItems sp (d+1) l'
          ++ closeWs sp d ++ ']' :: rest))) from by simp [List.append_assoc]]
      rw [show f + 3 = (f + 2) + 1 from rfl, parseVal_lbracket]
      rw [skipWs_append_ws (openWs sp (d+1)) (openWs_ws sp (d+1))]
      obtain ⟨c, cs', hds, hcw, hcb, _⟩ := serVal_head sp (d+1) e
      rw [hds, List.cons_append, skipWs_cons_not_ws hcw]
      rw [show f + 2 = (f + 1) + 1 from rfl, parseArr_cons (f+1) c _ hcb]
      rw [show c :: (cs' ++ (serItems sp (d+1) l' ++ closeWs sp d ++ ']' :: rest)) =
        serVal sp (d+1) e ++ (serItems sp (d+1) l' ++ closeWs sp d ++ ']' :: rest) from by
        rw [hds, List.cons_append]]
      rw [ih e (by simp) (d+1) (f+1)
        (serItems sp (d+1) l' ++ closeWs sp d ++ ']' :: rest)
        (afterItems_boundary sp (d+1) d l' rest)
        (by simp only [List.cons_append, List.length_cons, List.length_append] at hlen' ⊢
            omega)]
      dsimp only
      rw [parseItems_serItems sp l' (fun x hx => ih x (by simp [hx])) (d+1) d (f+1) rest
        (by simp only [List.cons_append, List.length_cons, List.length_append] at hlen' ⊢
            omega)]
      rfl
  | hobj fs ih =>
    revert ih
    induction fs with
    | nil =>
      intro _ d fuel rest hnb hlen
      have h2 : (serVal sp d (JsValue.obj [])).length = 2 := rfl
      obtain ⟨f, rfl⟩ : ∃ f, fuel = f + 2 := ⟨fuel - 2, by omega⟩
      show parseVal ((f + 1) + 1) ('\x7b' :: '\x7d' :: rest) = some (.obj [], rest)
      rw [parseVal_lbrace, skipWs_cons_not_ws (by decide), parseObj_rbrace]
    | cons kv fs' ihf =>
      intro ih
      obtain ⟨k, v⟩ := kv
      by_cases hv : v = JsValue.undef
      · subst hv
        intro d fuel rest hnb hlen
        have hser : serVal sp d (.obj ((k, .undef) :: fs')) = serVal sp d (.obj fs') := by
          rw [serVal_obj, serVal_obj, serMembers_cons_undef]
        rw [hser] at hlen ⊢
        rw [show stripUndef (.obj ((k, .undef) :: fs')) = stripUndef (.obj fs') from by
          show JsValue.obj (stripUndefF ((k, .undef) :: fs')) = _
          rw [stripUndefF_cons_undef]
          rfl]
        exact ihf (fun x hx => ih x (by simp [hx])) d fuel rest hnb hlen
      · intro d fuel rest hnb hlen
        have hbody : serMembers sp (d+1) true ((k, v) :: fs') =
            openWs sp (d+1) ++ quoteChars k ++ colonChars sp ++ serVal sp (d+1) v
              ++ serMembers sp (d+1) false fs' := by
          rw [serMembers_cons_ne sp (d+1) true k v fs' hv]
          rw [show (if true = true then openWs sp (d+1) else ',' :: openWs sp (d+1)) =
            openWs sp (d+1) from rfl]
        have hne : (serMembers sp (d+1) true ((k, v) :: fs')).isEmpty = false := by
          rw [hbody, quoteChars_eq]
          unfold openWs
          by_cases hsp : sp = 0
          · rw [if_pos hsp]; rfl
          · rw [if_neg hsp]; rfl
        have hser : serVal sp d (.obj ((k, v) :: fs')) ++ rest =
            '\x7b' :: (openWs sp (d+1) ++ (quoteChars k ++ (colonChars sp
              ++ (serVal sp (d+1) v ++ (serMembers sp (d+1) false fs'
                ++ closeWs sp d ++ '\x7d' :: rest))))) := by
          rw [serVal_obj, if_neg (by simp [hne]), hbody]
          simp [List.append_assoc]
        have hlen' := hlen
        rw [serVal_obj, if_neg (by simp [hne]), hbody] at hlen'
        simp only [quoteChars_eq, colonChars_eq, List.cons_append, List.length_cons,
          List.length_append, List.length_singleton] at hlen'
        have hsv := serVal_length_pos sp (d+1) v
        obtain ⟨f, rfl⟩ : ∃ f, fuel = f + 5 := ⟨fuel - 5, by omega⟩
        rw [hser]
        rw [show f + 5 = (f + 4) + 1 from rfl, parseVal_lbrace]
        rw [skipWs_append_ws (openWs sp (d+1)) (openWs_ws sp (d+1))]
        rw [quoteChars_eq, List.cons_append, skipWs_cons_not_ws (by decide)]
        rw [show f + 4 = (f + 3) + 1 from rfl, parseObj_cons (f+3) '"' _ (by decide)]
        rw [show f + 3 = (f + 2) + 1 from rfl, parseMember_quote]
        rw [show (escapeChars k.data ++ ['"']) ++ (colonChars sp ++ (serVal sp (d+1) v
            ++ (serMembers sp (d+1) false fs' ++ closeWs sp d ++ '\x7d' :: rest))) =
          escapeChars k.data ++ '"' :: (colonChars sp ++ (serVal sp (d+1) v
            ++ (serMembers sp (d+1) false fs' ++ closeWs sp d ++ '\x7d' :: rest)))
          from by simp]
        rw [parseStrGo_escape k.data []]
        dsimp only
        rw [show String.mk (List.reverse [] ++ k.data) = k from by simp [strMk_data]]
        rw [colonChars_eq, List.cons_append, skipWs_cons_not_ws (by decide)]
        rw [show f + 2 = (f + 1) + 1 from rfl, parseColon_colon]
        rw [parseVal_ws (f+1) (if sp = 0 then [] else [' '])
          (by intro c hc; by_cases hsp : sp = 0 <;> simp [hsp] at hc <;>
              simp [hc, jsonWs])]
        have hv2 : ∀ (d₂ fuel₂ : Nat) (rest₂ : List Char), numBoundary rest₂ = true →
            2 * (serVal sp d₂ v).length + rest₂.length < fuel₂ →
            parseVal fuel₂ (serVal sp d₂ v ++ rest₂) = some (stripUndef v, rest₂) :=
          ih (k, v) (by simp)
        rw [hv2 (d+1) (f+1)
          (serMembers sp (d+1) false fs' ++ closeWs sp d ++ '\x7d' :: rest)
          (afterMembers_boundary sp (d+1) d fs' rest)
          (by simp only [List.cons_append, List.length_cons, List.length_append] at hlen' ⊢
              omega)]
        dsimp only
        rw [parseMembers_serMembers sp fs' (fun x hx => ih x (by simp [hx]))
          (d+1) d (f+3) rest
          (by simp only [List.cons_append, List.length_cons, List.length_append] at hlen' ⊢
              omega)]
        rw [show stripUndef (JsValue.obj ((k, v) :: fs')) =
          JsValue.obj ((k, stripUndef v) :: stripUndefF fs') from by
          show JsValue.obj (stripUndefF ((k, v) :: fs')) = _
          rw [stripUndefF_cons_ne k v fs' hv]]

theorem stripUndef_of_noUndef :
    ∀ v : JsValue, noUndef v = true → stripUndef v = v := by
  intro v
  induction v using jsRecOn with
  | hundef => intro h; exact absurd h (by decide)
  | hnull => intro _; rfl
  | hbool b => intro _; rfl
  | hnum n => intro _; rfl
  | hstr s => intro _; rfl
  | harr es ih =>
    revert ih
    induction es with
    | nil => intro _ _; rfl
    | cons e l' ihl =>
      intro ih h
      have h' : (noUndef e && noUndefL l') = true := h
      rw [Bool.and_eq_true] at h'
      have he := ih e (by simp) h'.1
      have hl2 : stripUndef (JsValue.arr l') = JsValue.arr l' :=
        ihl (fun x hx => ih x (by simp [hx])) h'.2
      have hl3 : stripUndefL l' = l' := by injection hl2
      show JsValue.arr (stripUndef e :: stripUndefL l') = JsValue.arr (e :: l')
      rw [he, hl3]
  | hobj fs ih =>
    revert ih
    induction fs with
    | nil => intro _ _; rfl
    | cons kv fs' ihf =>
      intro ih h
      obtain ⟨k, v⟩ := kv
      have h' : (noUndef v && noUndefF fs') = true := h
      rw [Bool.and_eq_true] at h'
      have hvne : v ≠ JsValue.undef := by
        intro hq
        subst hq
        exact absurd h'.1 (by decide)
      have hsv := ih (k, v) (by simp) h'.1
      have hrest : stripUndef (JsValue.obj fs') = JsValue.obj fs' :=
        ihf (fun x hx => ih x (by simp [hx])) h'.2
      have hr2 : stripUndefF fs' = fs' := by injection hrest
      show JsValue.obj (stripUndefF ((k, v) :: fs')) = JsValue.obj ((k, v) :: fs')
      rw [stripUndefF_cons_ne k v fs' hvne, hsv, hr2]

/-- Stringifying with any spacing and parsing back yields the
undefined-stripped document. -/
theorem parseJson_jsonStringify (sp : Nat) (v : JsValue) :
    parseJson (jsonStringify sp v) = some (stripUndef v) := by
  show (match parseVal (2 * (serVal sp 0 v).length + 2) (serVal sp 0 v) with
    | some (w, rest) => if (skipWs rest).isEmpty then some w else none
    | none => none) = some (stripUndef v)
  have hrt := parseVal_serVal sp v 0 (2 * (serVal sp 0 v ++ []).length + 2) [] rfl
    (by simp)
  rw [show serVal sp 0 v = serVal sp 0 v ++ [] from (List.append_nil _).symm]
  rw [hrt]
  rfl

/-- **C8** (spec section 8, round-trip): as amended — for every document
containing no `undefined` anywhere, writing it as pretty-printed JSON
(`JSON.stringify(v, null, 2)`, as `saveToFile` does) and parsing the text
back yields a value deep-equal to the in-memory document. -/
theorem jsonStringify_parse_roundtrip (v : JsValue) (hv : noUndef v = true) :
    parseJson (jsonStringify 2 v) = some v := by
  rw [parseJson_jsonStringify 2 v, stripUndef_of_noUndef v hv]

theorem jsonStringify_parse_roundtrip_witness :
    noUndef (createEnvironment "https://api.example.com") = true ∧
    parseJson (jsonStringify 2 (createEnvironment "https://api.example.com")) =
      some (createEnvironment "https://api.example.com") :=
  ⟨rfl, jsonStringify_parse_roundtrip _ rfl⟩

/-- **C8** (spec section 8, round-trip), counterexample to the claim as
stated: the collection generated for a spec with one bodyless operation
holds a request whose `body` field is `undefined`; `JSON.stringify` drops
that field, so parsing the written file back yields a document that is not
deep-equal to the in-memory one. -/
theorem collection_roundtrip_not_identity :
    createCollection someFaker ⟨[], [("/p", [("get", .obj [])])], []⟩ = .ok doc8 ∧
    parseJson (jsonStringify 2 doc8) = some doc8stripped ∧
    doc8stripped ≠ doc8 := by
  refine ⟨rfl, ?_, ?_⟩
  · rw [parseJson_jsonStringify 2 doc8]
    rfl
  · intro h
    simp [doc8, doc8stripped] at h
